import Mathlib

/-!
Verification of the webgpu-gltf-viewer runtime core against its
natural-language specification.

The JavaScript sources are shallowly embedded: 4x4 matrices (glMatrix
`mat4`, stored column-major as 16 floats) become functions
`Fin 4 → Fin 4 → R` over a commutative ring `R` (entry `(r, c)`
corresponds to flat index `c*4+r`), typed arrays become `List`s, and
in-place mutation becomes explicit state passing.  Floating-point
arithmetic is idealised as exact arithmetic in `R` (usually `ℚ`).
-/

/-- A 4x4 matrix over `R`; entry `(r, c)` is flat glMatrix index `c*4+r`. -/
abbrev Mat4 (R : Type) : Type := Fin 4 → Fin 4 → R

/-- A 3-vector (glMatrix `vec3`). -/
abbrev Vec3 (R : Type) : Type := Fin 3 → R

/-- A 4-vector / quaternion `(x, y, z, w)` (glMatrix `vec4` / `quat`). -/
abbrev Vec4 (R : Type) : Type := Fin 4 → R

variable {R : Type} [CommRing R]

/-- glMatrix `mat4.create()`: the identity matrix. -/
def mat4create : Mat4 R := fun r c => if r = c then 1 else 0

/-- glMatrix `mat4.multiply(out, a, b)`: `out[r][c] = Σ_k a[r][k]*b[k][c]`
(the unrolled source loops compute exactly these sums on the flat layout). -/
def matMul (a b : Mat4 R) : Mat4 R := fun r c =>
  a r 0 * b 0 c + a r 1 * b 1 c + a r 2 * b 2 c + a r 3 * b 3 c

/-- Flatten a matrix to its glMatrix column-major 16-float layout:
`flat[i] = m[i % 4][i / 4]` (out-of-range indices give 0, matching a
zero-initialised typed array). -/
def matToFlat (m : Mat4 R) : List R :=
  (List.range 16).map fun i => m ⟨i % 4, by omega⟩ ⟨i / 4 % 4, by omega⟩

/-- Read a matrix out of a flat float list at `off`, column-major
(`mat4.clone(data.subarray(off, off+16))`); missing entries read 0. -/
def matFromFlat (data : List R) (off : ℕ) : Mat4 R :=
  fun r c => data.getD (off + c.val * 4 + r.val) 0

/-- glMatrix `mat4.fromRotationTranslationScale(out, q, v, s)`, translated
term-for-term from its source (quaternion `q = (x, y, z, w)`). -/
def fromRotationTranslationScale (q : Vec4 R) (v s : Vec3 R) : Mat4 R :=
  let x := q 0; let y := q 1; let z := q 2; let w := q 3
  let x2 := x + x; let y2 := y + y; let z2 := z + z
  let xx := x * x2; let xy := x * y2; let xz := x * z2
  let yy := y * y2; let yz := y * z2; let zz := z * z2
  let wx := w * x2; let wy := w * y2; let wz := w * z2
  let sx := s 0; let sy := s 1; let sz := s 2
  ![![(1 - (yy + zz)) * sx, (xy - wz) * sy, (xz + wy) * sz, v 0],
    ![(xy + wz) * sx, (1 - (xx + zz)) * sy, (yz - wx) * sz, v 1],
    ![(xz - wy) * sx, (yz + wx) * sy, (1 - (xx + yy)) * sz, v 2],
    ![0, 0, 0, 1]]

/-- Material and geometry flags of `Primitive` (src Mesh.js) that the
renderer reads when packing uniforms. -/
structure Primitive (R : Type) where
  hasSkinning : Bool
  baseColor : Vec4 R
  hasTexture : Bool
  hasNormals : Bool
  hasMetallicRoughnessTexture : Bool
  metallicFactor : R
  roughnessFactor : R
  normalScale : R
  hasNormalTexture : Bool
  emissiveFactor : List R
  hasEmissiveTexture : Bool

/-- A mesh: a list of primitives (src Mesh.js). -/
structure Mesh (R : Type) where
  primitives : List (Primitive R)

/-- Scene-graph node (src Node.js).  `primitiveInstances` is `none` until
the model loader attaches per-node GPU instances (one per mesh primitive). -/
structure Node (R : Type) where
  translation : Vec3 R
  rotation : Vec4 R
  scale : Vec3 R
  matrix : Mat4 R
  worldMatrix : Mat4 R
  hasOriginalMatrix : Bool
  meshIndex : Option ℕ
  skinIndex : Option ℕ
  children : List ℕ
  primitiveInstances : Option (List (Primitive R))

/-- Stand-in node read for an out-of-bounds array access (the JS code
would crash there; all theorems assume in-bounds indices). -/
def Node.arb : Node R :=
  { translation := fun _ => 0
    rotation := fun _ => 0
    scale := fun _ => 0
    matrix := mat4create
    worldMatrix := mat4create
    hasOriginalMatrix := false
    meshIndex := none
    skinIndex := none
    children := []
    primitiveInstances := none }

/-- `Node.updateLocalMatrix` (src Node.js): recompose the local matrix
from the node's current rotation, translation and scale. -/
def Node.updateLocalMatrix (n : Node R) : Node R :=
  { n with matrix := fromRotationTranslationScale n.rotation n.translation n.scale }

/-- `Node.updateWorldMatrix(parentMatrix)` (src Node.js). -/
def Node.updateWorldMatrix (n : Node R) (parentMatrix : Mat4 R) : Node R :=
  let n' := n.updateLocalMatrix
  { n' with worldMatrix := matMul parentMatrix n'.matrix }

/-- Skin data (src Skin.js): joint node indices, inverse bind matrices and
the per-frame output joint matrices. -/
structure Skin (R : Type) where
  joints : List ℕ
  inverseBindMatrices : List (Mat4 R)
  jointMatrices : List (Mat4 R)

/-- The glTF-side skin record consumed by `Skin.fromGLTF`: joint indices
plus the optional accessor index of the inverse bind matrices. -/
structure SkinData where
  joints : List ℕ
  inverseBindMatrices : Option ℕ

/-- `Skin.fromGLTF(skinData, getAccessorData)` (src Skin.js): read one
16-float inverse bind matrix per joint from the accessor, or use identity
matrices when no accessor is declared; `jointMatrices` start as identity
(the constructor maps `mat4.create()` over the joints). -/
def Skin.fromGLTF (sd : SkinData) (getAccessorData : ℕ → List R) : Skin R :=
  let inverseBindMatrices : List (Mat4 R) :=
    match sd.inverseBindMatrices with
    | some accessorIndex =>
        let data := getAccessorData accessorIndex
        (List.range sd.joints.length).map fun i => matFromFlat data (i * 16)
    | none => sd.joints.map fun _ => mat4create
  { joints := sd.joints
    inverseBindMatrices := inverseBindMatrices
    jointMatrices := sd.joints.map fun _ => mat4create }

/-- `Skin.updateMatrices(nodes)` (src Skin.js): for each joint `i`,
`jointMatrices[i] = nodes[joints[i]].worldMatrix * inverseBindMatrices[i]`. -/
def Skin.updateMatrices (s : Skin R) (nodes : List (Node R)) : Skin R :=
  { s with
    jointMatrices := (List.range s.joints.length).map fun i =>
      matMul (nodes.getD (s.joints.getD i 0) Node.arb).worldMatrix
        (s.inverseBindMatrices.getD i mat4create) }

/-- Overwrite `arr[off .. off+vals.length)` with `vals`
(`Float32Array.prototype.set(vals, off)`), leaving the rest unchanged. -/
def setSlice (arr : List R) (off : ℕ) (vals : List R) : List R :=
  (List.range arr.length).map fun k =>
    if off ≤ k ∧ k < off + vals.length then vals.getD (k - off) 0 else arr.getD k 0

/-- `Skin.getMatricesArray(maxJoints)` (src Skin.js): a zero-initialised
flat array of `maxJoints*16` floats into which the first
`min(jointMatrices.length, maxJoints)` joint matrices are copied. -/
def Skin.getMatricesArray (s : Skin R) (maxJoints : ℕ) : List R :=
  let init : List R := List.replicate (maxJoints * 16) 0
  let numJoints := min s.jointMatrices.length maxJoints
  (List.range numJoints).foldl
    (fun data i => setSlice data (i * 16) (matToFlat (s.jointMatrices.getD i mat4create)))
    init

/-- `MAX_JOINTS` (src constants.js). -/
def MAX_JOINTS : ℕ := 180

/-- Truncated (toward-zero) quotient of two rationals, the rounding that
the JavaScript `%` operator uses. -/
def ratTruncDiv (a b : ℚ) : ℤ := if 0 ≤ a / b then ⌊a / b⌋ else ⌈a / b⌉

/-- The JavaScript remainder `a % b` on numbers (truncated division).
`b = 0` gives NaN in JS, which no claim exercises; it is mapped to 0. -/
def jsMod (a b : ℚ) : ℚ := if b = 0 then 0 else a - b * (ratTruncDiv a b : ℚ)

/-- Animation target path (`channel.target.path` strings of src Animation.js;
any other string makes `apply` a no-op, mirrored by `other`). -/
inductive TargetPath
  | translation
  | rotation
  | scale
  | other
deriving DecidableEq

/-- `AnimationChannel` (src Animation.js): target node index and property,
keyframe times and the flat value array. -/
structure AnimationChannel where
  targetNode : ℕ
  targetPath : TargetPath
  times : List ℚ
  values : List ℚ

/-- The scan of `_findKeyframes` (src Animation.js lines 131-138): walk
`i = 0 .. times.length-2` and return the first bracketing pair
`times[i] ≤ t < times[i+1]`; the fuel argument counts remaining loop
iterations (callers pass `times.length`, enough for the whole loop). -/
def findKeyframesScan (times : List ℚ) (t : ℚ) : ℕ → ℕ → ℕ × ℕ × ℚ
  | 0, _ => (0, 0, 0)
  | fuel + 1, i =>
    if i < times.length - 1 then
      if times.getD i 0 ≤ t ∧ t < times.getD (i + 1) 0 then
        let startTime := times.getD i 0
        let endTime := times.getD (i + 1) 0
        (i, i + 1, (t - startTime) / (endTime - startTime))
      else
        findKeyframesScan times t fuel (i + 1)
    else (0, 0, 0)

/-- `AnimationChannel._findKeyframes(t)` (src Animation.js): edge cases for
empty arrays and for `t` at or outside the keyframe range, otherwise the
linear scan for the bracketing pair; returns `(prevIndex, nextIndex, factor)`. -/
def AnimationChannel.findKeyframes (ch : AnimationChannel) (t : ℚ) : ℕ × ℕ × ℚ :=
  let times := ch.times
  if times.length = 0 then (0, 0, 0)
  else if t ≤ times.getD 0 0 then (0, 0, 0)
  else if times.getD (times.length - 1) 0 ≤ t then
    (times.length - 1, times.length - 1, 0)
  else findKeyframesScan times t times.length 0

/-- glMatrix `vec3.lerp(out, a, b, t)`: `out = a + t*(b - a)` componentwise. -/
def vec3lerp (a b : Vec3 ℚ) (t : ℚ) : Vec3 ℚ := fun i => a i + t * (b i - a i)

/-- The 3-vector `values.subarray(i*3, i*3+3)` of a channel's value array. -/
def AnimationChannel.vec3At (ch : AnimationChannel) (i : ℕ) : Vec3 ℚ :=
  fun k => ch.values.getD (i * 3 + k.val) 0

/-- The 4-vector `values.subarray(i*4, i*4+4)` of a channel's value array. -/
def AnimationChannel.vec4At (ch : AnimationChannel) (i : ℕ) : Vec4 ℚ :=
  fun k => ch.values.getD (i * 4 + k.val) 0

/-- `AnimationChannel.apply(node, t)` (src Animation.js): find the
bracketing keyframes and write the interpolated value into the node's
TRS field selected by the target path.  glMatrix `quat.slerp` (spherical
interpolation, irrational in general) is abstracted as the parameter
`slerp`; every claim about `apply` is independent of its values. -/
def AnimationChannel.apply (slerp : Vec4 ℚ → Vec4 ℚ → ℚ → Vec4 ℚ)
    (ch : AnimationChannel) (node : Node ℚ) (t : ℚ) : Node ℚ :=
  let r := ch.findKeyframes t
  let prevIndex := r.1
  let nextIndex := r.2.1
  let factor := r.2.2
  match ch.targetPath with
  | .rotation =>
      { node with rotation := slerp (ch.vec4At prevIndex) (ch.vec4At nextIndex) factor }
  | .translation =>
      { node with translation := vec3lerp (ch.vec3At prevIndex) (ch.vec3At nextIndex) factor }
  | .scale =>
      { node with scale := vec3lerp (ch.vec3At prevIndex) (ch.vec3At nextIndex) factor }
  | .other => node

/-- `Animation` (src Animation.js): named clip with channels and duration. -/
structure Animation where
  channels : List AnimationChannel
  duration : ℚ

/-- `Animation.update(nodes, time)` (src Animation.js): wrap time by the
clip duration, then apply each channel to its target node; a channel whose
target index has no node (`!node`) is skipped (`continue`). -/
def Animation.update (slerp : Vec4 ℚ → Vec4 ℚ → ℚ → Vec4 ℚ)
    (anim : Animation) (nodes : List (Node ℚ)) (time : ℚ) : List (Node ℚ) :=
  let t := jsMod time anim.duration
  anim.channels.foldl
    (fun ns ch =>
      if ch.targetNode < ns.length then
        ns.set ch.targetNode (ch.apply slerp (ns.getD ch.targetNode Node.arb) t)
      else ns)
    nodes

/-- One step of `NodeHierarchy.updateWorldMatrices`'s `updateRecursive`
(src Node.js): update this node's world matrix (recomputing the local
matrix when `forceUpdate` or the node has no original matrix), then recurse
into the children, each child reading the node's current world matrix.
The fuel bounds recursion depth; the JS recursion has no such bound and
diverges on cyclic graphs. -/
def updateRecursive (forceUpdate : Bool) :
    ℕ → List (Node R) → ℕ → Mat4 R → List (Node R)
  | 0, nodes, _, _ => nodes
  | fuel + 1, nodes, nodeIndex, parentMatrix =>
    let node := nodes.getD nodeIndex Node.arb
    let node' :=
      if forceUpdate || !node.hasOriginalMatrix then
        node.updateWorldMatrix parentMatrix
      else { node with worldMatrix := matMul parentMatrix node.matrix }
    let nodes' := nodes.set nodeIndex node'
    node'.children.foldl
      (fun ns childIndex =>
        updateRecursive forceUpdate fuel ns childIndex
          ((ns.getD nodeIndex Node.arb).worldMatrix))
      nodes'

/-- `NodeHierarchy.updateWorldMatrices(baseTransform, forceUpdate)`
(src Node.js): run `updateRecursive` from every root with `baseTransform`
as the implicit parent matrix. -/
def updateWorldMatrices (forceUpdate : Bool) (fuel : ℕ)
    (nodes : List (Node R)) (rootNodes : List ℕ) (baseTransform : Mat4 R) :
    List (Node R) :=
  rootNodes.foldl
    (fun ns rootIndex => updateRecursive forceUpdate fuel ns rootIndex baseTransform)
    nodes

/-- The index set a call `updateRecursive fuel · idx ·` touches: the node
itself followed by the depth-first traversals of its children (children
lists never change during the update, so this is computed on the initial
node array). -/
def dfsAux (nodes : List (Node R)) : ℕ → ℕ → List ℕ
  | 0, _ => []
  | fuel + 1, idx =>
    idx :: ((nodes.getD idx Node.arb).children.foldl
      (fun acc c => acc ++ dfsAux nodes fuel c) [])

/-- Depth-first traversal order of a whole root list. -/
def dfsRoots (nodes : List (Node R)) (fuel : ℕ) (roots : List ℕ) : List ℕ :=
  roots.foldl (fun acc r => acc ++ dfsAux nodes fuel r) []

/-- A chain of indices each of which is a child of the previous one
(a root-to-descendant path once its head is a root). -/
inductive ChildChain (nodes : List (Node R)) : List ℕ → Prop
  | single (i : ℕ) : ChildChain nodes [i]
  | cons (i j : ℕ) (l : List ℕ) (hj : j ∈ (nodes.getD i Node.arb).children)
      (htail : ChildChain nodes (j :: l)) : ChildChain nodes (i :: j :: l)

/-- The local matrix `compose(T, R, S)` a forced update recomputes for a
node. -/
def localMatrix (n : Node R) : Mat4 R :=
  fromRotationTranslationScale n.rotation n.translation n.scale

/-- One draw call recorded by the walk of `Renderer._drawModel`
(src Renderer.js): the primitive together with the effective model matrix
passed to `_drawPrimitive`. -/
structure DrawCall (R : Type) where
  prim : Primitive R
  modelMatrix : Mat4 R
  skinIndex : Option ℕ

/-- The draw calls `Renderer._drawModel`'s `drawNode` emits for one node
(src Renderer.js lines 156-178): nodes with a mesh index and primitive
instances draw every instance, using the identity model matrix when any
primitive of the mesh is skinned and the node's world matrix otherwise. -/
def drawNodeCalls (meshes : List (Mesh R)) (node : Node R) : List (DrawCall R) :=
  match node.meshIndex, node.primitiveInstances with
  | some meshIndex, some instances =>
    let mesh := meshes.getD meshIndex ⟨[]⟩
    let hasSkinning := mesh.primitives.any (·.hasSkinning)
    let modelMatrix := if hasSkinning then mat4create else node.worldMatrix
    instances.map fun p => ⟨p, modelMatrix, node.skinIndex⟩
  | _, _ => []

/-- The recursive walk of `Renderer._drawModel` (src Renderer.js): draw
this node, then its children depth-first (fuel bounds the depth). -/
def drawModelRec (meshes : List (Mesh R)) (nodes : List (Node R)) :
    ℕ → ℕ → List (DrawCall R)
  | 0, _ => []
  | fuel + 1, idx =>
    let node := nodes.getD idx Node.arb
    drawNodeCalls meshes node ++
      node.children.foldl (fun acc c => acc ++ drawModelRec meshes nodes fuel c) []

/-- `Renderer._drawModel(renderPass, model)` (src Renderer.js): walk the
model from its root nodes, collecting the draw calls in order. -/
def drawModel (meshes : List (Mesh R)) (nodes : List (Node R))
    (roots : List ℕ) (fuel : ℕ) : List (DrawCall R) :=
  roots.foldl (fun acc r => acc ++ drawModelRec meshes nodes fuel r) []

/-- glTF component types (src constants.js `COMPONENT_TYPES`, mapped to
typed arrays by `COMPONENT_TYPE_ARRAYS`). -/
inductive ComponentType
  | byte
  | unsignedByte
  | short
  | unsignedShort
  | unsignedInt
  | float
deriving DecidableEq

/-- `BYTES_PER_ELEMENT` of the typed array of a component type. -/
def ComponentType.bytesPerElement : ComponentType → ℕ
  | .byte => 1
  | .unsignedByte => 1
  | .short => 2
  | .unsignedShort => 2
  | .unsignedInt => 4
  | .float => 4

/-- Little-endian unsigned read of `size` bytes at `off` from a byte
buffer (bytes out of range read 0). -/
def readWordLE (bin : List ℕ) (off size : ℕ) : ℕ :=
  (List.range size).foldl (fun acc k => acc + bin.getD (off + k) 0 * 256 ^ k) 0

/-- The numeric value a typed-array element holds for the bytes at `off`:
unsigned types and `float` are kept as their little-endian bit pattern
(IEEE-754 decoding is injective on the pattern, and every claim only
compares values for equality); signed types are two's-complement decoded. -/
def decodeComponent (ct : ComponentType) (bin : List ℕ) (off : ℕ) : ℤ :=
  match ct with
  | .byte =>
      let w := readWordLE bin off 1
      if w < 128 then (w : ℤ) else (w : ℤ) - 256
  | .short =>
      let w := readWordLE bin off 2
      if w < 32768 then (w : ℤ) else (w : ℤ) - 65536
  | _ => (readWordLE bin off ct.bytesPerElement : ℤ)

/-- The accessor fields `GLTFLoader.getAccessorData` reads (the byte
offset below is the combined bufferView + accessor offset). -/
structure AccessorView where
  byteOffset : ℕ
  count : ℕ
  components : ℕ
  byteStride : ℕ
  componentType : ComponentType

/-- The packed path of `GLTFLoader.getAccessorData` (src GLTFLoader.js):
`new TypedArray(buffer, byteOffset, count*components)` reads consecutive
elements from `byteOffset`. -/
def packedExtract (bin : List ℕ) (a : AccessorView) : List ℤ :=
  (List.range (a.count * a.components)).map fun k =>
    decodeComponent a.componentType bin (a.byteOffset + k * a.componentType.bytesPerElement)

/-- `GLTFLoader._extractInterleavedData` (src GLTFLoader.js): element `i`,
component `j` is read from `byteOffset + i*byteStride + j*elementSize`
through a `DataView` — but only for the `Float32Array`, `Uint16Array`,
`Uint32Array` and `Uint8Array` cases of its if/else chain; for the signed
`Int8Array`/`Int16Array` typed arrays no branch matches and the
zero-initialised result entry is left at 0. -/
def extractInterleavedData (bin : List ℕ) (byteOffset count components byteStride : ℕ)
    (ct : ComponentType) : List ℤ :=
  (List.range (count * components)).map fun k =>
    let i := k / components
    let j := k % components
    match ct with
    | .float | .unsignedShort | .unsignedInt | .unsignedByte =>
        decodeComponent ct bin (byteOffset + i * byteStride + j * ct.bytesPerElement)
    | .byte | .short => 0

/-- `GLTFLoader.getAccessorData` (src GLTFLoader.js): use the interleaved
path when a nonzero byte stride differs from the tightly-packed element
size, the packed typed-array view otherwise. -/
def getAccessorData (bin : List ℕ) (a : AccessorView) : List ℤ :=
  if a.byteStride ≠ 0 ∧ a.byteStride ≠ a.components * a.componentType.bytesPerElement then
    extractInterleavedData bin a.byteOffset a.count a.components a.byteStride a.componentType
  else
    packedExtract bin a

/-- What the ideal de-interleaving reads: element `i`, component `j` from
`byteOffset + i*byteStride + j*elementSize`, for every component type. -/
def stridedReadSpec (bin : List ℕ) (byteOffset count components byteStride : ℕ)
    (ct : ComponentType) : List ℤ :=
  (List.range (count * components)).map fun k =>
    decodeComponent ct bin (byteOffset + (k / components) * byteStride
      + (k % components) * ct.bytesPerElement)

/-- Word-granular model of the 368-byte per-draw uniform `ArrayBuffer` of
`Renderer._drawPrimitive` (src Renderer.js): word `w` is byte offset
`4*w`; every field write is 4-byte aligned.  Booleans written through the
`Uint32Array` view are stored as 0/1. -/
def writeWords (buf : ℕ → R) (off : ℕ) (vals : List R) : ℕ → R :=
  fun w => if off ≤ w ∧ w < off + vals.length then vals.getD (w - off) 0 else buf w

/-- Numeric value of a flag written through the `Uint32Array` view. -/
def boolWord (b : Bool) : R := if b then 1 else 0

/-- The uniform record `Renderer._drawPrimitive` packs (src Renderer.js
lines 198-220), as the word array of the 368-byte buffer: each `set` /
indexed write at float or uint index `k` writes word `k`. -/
def packUniforms (modelMatrix viewMatrix projectionMatrix normalMatrix : Mat4 R)
    (lightDir : Vec4 R) (p : Primitive R) (skinPresent : Bool) : ℕ → R :=
  let b0 : ℕ → R := fun _ => 0
  let b1 := writeWords b0 0 (matToFlat modelMatrix)
  let b2 := writeWords b1 16 (matToFlat viewMatrix)
  let b3 := writeWords b2 32 (matToFlat projectionMatrix)
  let b4 := writeWords b3 48 (matToFlat normalMatrix)
  let b5 := writeWords b4 64 ((List.finRange 4).map lightDir)
  let b6 := writeWords b5 68 ((List.finRange 4).map p.baseColor)
  let b7 := writeWords b6 72 [boolWord (p.hasSkinning && skinPresent),
    boolWord p.hasTexture, boolWord p.hasNormals, boolWord p.hasMetallicRoughnessTexture]
  let b8 := writeWords b7 76 [p.metallicFactor, p.roughnessFactor, p.normalScale,
    boolWord p.hasNormalTexture]
  let b9 := writeWords b8 80 [p.emissiveFactor.getD 0 0, p.emissiveFactor.getD 1 0,
    p.emissiveFactor.getD 2 0, p.emissiveFactor.getD 3 1]
  writeWords b9 84 [boolWord p.hasEmissiveTexture]

/-- Size in bytes of the JS uniform staging buffer (`new ArrayBuffer(368)`). -/
def uniformBufferBytes : ℕ := 368

/-- WGSL (alignment, size) of each field of the `Uniforms` struct of
src/shaders/main.wgsl in declaration order: four `mat4x4<f32>`, `lightDir`
and `baseColor` (`vec4<f32>`), `flags` (`vec4<u32>`), four scalars
(`metallicFactor`, `roughnessFactor`, `normalScale`, `hasNormalTexture`),
`emissiveFactor` (`vec4<f32>`), `hasEmissiveTexture` (`u32`) and the
trailing `padding2` (`vec3<u32>`). -/
def wgslUniformFields : List (ℕ × ℕ) :=
  [(16, 64), (16, 64), (16, 64), (16, 64), (16, 16), (16, 16), (16, 16),
   (4, 4), (4, 4), (4, 4), (4, 4), (16, 16), (4, 4), (16, 12)]

/-- Round `n` up to a multiple of `a` (WGSL `roundUp`). -/
def roundUp (a n : ℕ) : ℕ := if a = 0 then n else ((n + a - 1) / a) * a

/-- WGSL struct layout: byte offset of each field, each aligned to its
alignment with fields laid out in declaration order. -/
def wgslOffsets (fields : List (ℕ × ℕ)) : List ℕ :=
  (fields.foldl
    (fun (acc : List ℕ × ℕ) f =>
      let off := roundUp f.1 acc.2
      (acc.1 ++ [off], off + f.2))
    ([], 0)).1

/-- WGSL struct size: the end of the last field rounded up to the struct
alignment (the maximum field alignment). -/
def wgslStructSize (fields : List (ℕ × ℕ)) : ℕ :=
  let endOff := (fields.foldl
    (fun (acc : List ℕ × ℕ) f =>
      let off := roundUp f.1 acc.2
      (acc.1 ++ [off], off + f.2))
    ([], 0)).2
  roundUp (fields.foldl (fun m f => max m f.1) 1) endOff

/-- glMatrix `mat4.getTranslation(out, mat)`: the last column. -/
def getTranslation {K : Type} [CommRing K] (m : Mat4 K) : Vec3 K :=
  ![m 0 3, m 1 3, m 2 3]

/-- glMatrix `mat4.getScaling(out, mat)`: the euclidean norms of the three
basis columns.  The square root (`Math.hypot`) is abstracted by the
parameter `sqrt`; theorems restrict it on the arguments actually taken. -/
def getScaling {K : Type} [CommRing K] (sqrt : K → K) (m : Mat4 K) : Vec3 K :=
  ![sqrt (m 0 0 * m 0 0 + m 1 0 * m 1 0 + m 2 0 * m 2 0),
    sqrt (m 0 1 * m 0 1 + m 1 1 * m 1 1 + m 2 1 * m 2 1),
    sqrt (m 0 2 * m 0 2 + m 1 2 * m 1 2 + m 2 2 * m 2 2)]

/-- The quaternion-extraction stage of glMatrix `mat4.getRotation`: given
the nine scale-normalised entries `sm..`, branch on the trace / largest
diagonal entry and extract the quaternion, exactly as the library source
does. -/
def getRotationCore {K : Type} [LinearOrderedField K] (sqrt : K → K)
    (sm11 sm12 sm13 sm21 sm22 sm23 sm31 sm32 sm33 : K) : Vec4 K :=
  let trace := sm11 + sm22 + sm33
  if 0 < trace then
    let S := sqrt (trace + 1) * 2
    ![(sm23 - sm32) / S, (sm31 - sm13) / S, (sm12 - sm21) / S, (1 / 4 : K) * S]
  else if sm22 < sm11 ∧ sm33 < sm11 then
    let S := sqrt (1 + sm11 - sm22 - sm33) * 2
    ![(1 / 4 : K) * S, (sm12 + sm21) / S, (sm31 + sm13) / S, (sm23 - sm32) / S]
  else if sm33 < sm22 then
    let S := sqrt (1 + sm22 - sm11 - sm33) * 2
    ![(sm12 + sm21) / S, (1 / 4 : K) * S, (sm23 + sm32) / S, (sm31 - sm13) / S]
  else
    let S := sqrt (1 + sm33 - sm11 - sm22) * 2
    ![(sm31 + sm13) / S, (sm23 + sm32) / S, (1 / 4 : K) * S, (sm12 - sm21) / S]

/-- glMatrix `mat4.getRotation(out, mat)` (gl-matrix v3, the library the
viewer loads globally), translated statement-for-statement: divide the
flat entries by the inverse scales — note the library multiplies entry
`mat[c*4+r]` by `is(r+1)`, indexing the inverse scale by row — and then
extract a quaternion by the trace/largest-diagonal branching of
`getRotationCore`. -/
def getRotation {K : Type} [LinearOrderedField K] (sqrt : K → K) (m : Mat4 K) : Vec4 K :=
  let scaling := getScaling sqrt m
  let is1 := 1 / scaling 0
  let is2 := 1 / scaling 1
  let is3 := 1 / scaling 2
  getRotationCore sqrt (m 0 0 * is1) (m 1 0 * is2) (m 2 0 * is3)
    (m 0 1 * is1) (m 1 1 * is2) (m 2 1 * is3)
    (m 0 2 * is1) (m 1 2 * is2) (m 2 2 * is3)

/-- The glTF-side node record consumed by `Node.fromGLTF` (src Node.js). -/
structure NodeData (K : Type) where
  translation : Option (Vec3 K)
  rotation : Option (Vec4 K)
  scale : Option (Vec3 K)
  matrix : Option (Mat4 K)
  mesh : Option ℕ
  skin : Option ℕ
  children : List ℕ

/-- `Node.fromGLTF(nodeData, index)` (src Node.js): defaulted TRS fields,
and when the node supplies a matrix directly, the matrix is kept and
decomposed into translation, rotation and scale via the glMatrix getters. -/
def Node.fromGLTF {K : Type} [LinearOrderedField K] (sqrt : K → K) (nd : NodeData K) :
    Node K :=
  let base : Node K :=
    { translation := nd.translation.getD ![0, 0, 0]
      rotation := nd.rotation.getD ![0, 0, 0, 1]
      scale := nd.scale.getD ![1, 1, 1]
      matrix := mat4create
      worldMatrix := mat4create
      hasOriginalMatrix := nd.matrix.isSome
      meshIndex := nd.mesh
      skinIndex := nd.skin
      children := nd.children
      primitiveInstances := none }
  match nd.matrix with
  | some m =>
      { base with
        matrix := m
        translation := getTranslation m
        rotation := getRotation sqrt m
        scale := getScaling sqrt m }
  | none => base

lemma getD_range_map {α : Type} (f : ℕ → α) (n i : ℕ) (d : α) (h : i < n) :
    ((List.range n).map f).getD i d = f i := by
  rw [List.getD_eq_getElem?_getD]
  simp [List.getElem?_map, List.getElem?_range h]

lemma getD_map_const {α β : Type} (l : List α) (c : β) (k : ℕ) (d : β) (h : k < l.length) :
    (l.map (fun _ => c)).getD k d = c := by
  rw [List.getD_eq_getElem?_getD]
  simp [List.getElem?_replicate, h]

/-- C1: for every skin and joint index `i < jointCount`, `updateMatrices`
sets joint matrix `i` to `worldMatrix(nodes[joints[i]]) * inverseBind[i]`;
and a skin built from source data with no inverse-bind accessor has
identity inverse bind matrices. -/
theorem skin_updateMatrices_spec (s : Skin ℚ) (nodes : List (Node ℚ)) (i : ℕ)
    (hi : i < s.joints.length) :
    (s.updateMatrices nodes).jointMatrices.getD i mat4create =
      matMul (nodes.getD (s.joints.getD i 0) Node.arb).worldMatrix
        (s.inverseBindMatrices.getD i mat4create) ∧
    ∀ (sd : SkinData) (gda : ℕ → List ℚ), sd.inverseBindMatrices = none →
      ∀ k, k < sd.joints.length →
        (Skin.fromGLTF sd gda).inverseBindMatrices.getD k mat4create = mat4create := by
  constructor
  · simp only [Skin.updateMatrices]
    exact getD_range_map _ _ i _ hi
  · intro sd gda hnone k hk
    simp only [Skin.fromGLTF, hnone]
    exact getD_map_const _ _ k _ hk

/-- A one-joint skin used as concrete witness input. -/
def witSkin : Skin ℚ := ⟨[0], [mat4create], [mat4create]⟩

/-- A one-node array used as concrete witness input. -/
def witNodes : List (Node ℚ) := [Node.arb]

/-- Witness for `skin_updateMatrices_spec` at a concrete one-joint skin. -/
theorem skin_updateMatrices_spec_witness :
    0 < witSkin.joints.length ∧
    (witSkin.updateMatrices witNodes).jointMatrices.getD 0 mat4create =
      matMul ((witNodes.getD (witSkin.joints.getD 0 0) Node.arb)).worldMatrix
        (witSkin.inverseBindMatrices.getD 0 mat4create) :=
  ⟨by decide, (skin_updateMatrices_spec witSkin witNodes 0 (by decide)).1⟩

lemma setSlice_length (arr : List R) (off : ℕ) (vals : List R) :
    (setSlice arr off vals).length = arr.length := by
  simp [setSlice]

lemma setSlice_getD (arr : List R) (off : ℕ) (vals : List R) (j : ℕ) :
    (setSlice arr off vals).getD j 0 =
      if j < arr.length then
        (if off ≤ j ∧ j < off + vals.length then vals.getD (j - off) 0 else arr.getD j 0)
      else 0 := by
  by_cases hj : j < arr.length
  · rw [if_pos hj]
    exact getD_range_map _ _ j _ hj
  · rw [if_neg hj]
    apply List.getD_eq_default
    simpa [setSlice] using Nat.le_of_not_lt hj

lemma matToFlat_length (m : Mat4 R) : (matToFlat m).length = 16 := by
  simp [matToFlat]

lemma replicate_getD_zero (n j : ℕ) : (List.replicate n (0 : R)).getD j 0 = 0 := by
  by_cases hj : j < n
  · rw [List.getD_eq_getElem?_getD]
    simp [List.getElem?_replicate, hj]
  · apply List.getD_eq_default
    simpa using Nat.le_of_not_lt hj

lemma getMatricesArray_fold_spec (s : Skin R) (cap : ℕ) (n : ℕ) (j : ℕ) :
    (((List.range n).foldl
      (fun data i => setSlice data (i * 16) (matToFlat (s.jointMatrices.getD i mat4create)))
      (List.replicate (cap * 16) (0 : R))).length = cap * 16) ∧
    (((List.range n).foldl
      (fun data i => setSlice data (i * 16) (matToFlat (s.jointMatrices.getD i mat4create)))
      (List.replicate (cap * 16) (0 : R))).getD j 0 =
      if j < cap * 16 ∧ j / 16 < n then
        (matToFlat (s.jointMatrices.getD (j / 16) mat4create)).getD (j % 16) 0
      else 0) := by
  induction n with
  | zero =>
    refine ⟨by simp, ?_⟩
    simp [replicate_getD_zero]
  | succ n ih =>
    rw [List.range_succ, List.foldl_append, List.foldl_cons, List.foldl_nil]
    refine ⟨by rw [setSlice_length, ih.1], ?_⟩
    rw [setSlice_getD, ih.1]
    by_cases hj : j < cap * 16
    · rw [if_pos hj]
      by_cases hin : n * 16 ≤ j ∧ j < n * 16 + (matToFlat (s.jointMatrices.getD n mat4create)).length
      · rw [if_pos hin]
        rcases hin with ⟨h1, h2⟩
        rw [matToFlat_length] at h2
        have hdiv : j / 16 = n := by omega
        have hmod : j - n * 16 = j % 16 := by omega
        rw [if_pos ⟨hj, by omega⟩, hdiv, hmod]
      · rw [if_neg hin, ih.2]
        rw [matToFlat_length] at hin
        by_cases hlt : j / 16 < n
        · rw [if_pos ⟨hj, hlt⟩, if_pos ⟨hj, by omega⟩]
        · rw [if_neg (by tauto), if_neg ?_]
          rintro ⟨-, hn1⟩
          exact hin ⟨by omega, by omega⟩
    · rw [if_neg hj, if_neg (by tauto)]

/-- C4 (amended): `getMatricesArray(cap)` yields exactly `cap*16` floats,
slot `i` holds joint matrix `i` for `i < min(jointCount, cap)`, joints at
or beyond `cap` are dropped, and slots beyond the joint count are
zero-filled (the `Float32Array` is zero-initialised; the padding is the
zero matrix, not the identity). -/
theorem skin_getMatricesArray_spec (s : Skin ℚ) (cap : ℕ) :
    (s.getMatricesArray cap).length = cap * 16 ∧
    (∀ i k, i < min s.jointMatrices.length cap → k < 16 →
      (s.getMatricesArray cap).getD (i * 16 + k) 0 =
        (matToFlat (s.jointMatrices.getD i mat4create)).getD k 0) ∧
    (∀ i k, min s.jointMatrices.length cap ≤ i → i < cap → k < 16 →
      (s.getMatricesArray cap).getD (i * 16 + k) 0 = 0) := by
  refine ⟨(getMatricesArray_fold_spec s cap _ 0).1, ?_, ?_⟩
  · intro i k hi hk
    have h := (getMatricesArray_fold_spec s cap (min s.jointMatrices.length cap) (i * 16 + k)).2
    rw [Skin.getMatricesArray, h, if_pos ⟨by omega, by omega⟩]
    have : (i * 16 + k) / 16 = i := by omega
    have hm : (i * 16 + k) % 16 = k := by omega
    rw [this, hm]
  · intro i k hi hicap hk
    have h := (getMatricesArray_fold_spec s cap (min s.jointMatrices.length cap) (i * 16 + k)).2
    rw [Skin.getMatricesArray, h, if_neg ?_]
    rintro ⟨-, hdiv⟩
    omega

/-- Witness for `skin_getMatricesArray_spec`: a one-joint skin serialised
into a two-slot array has its matrix in slot 0 and zeros in slot 1. -/
theorem skin_getMatricesArray_spec_witness :
    (witSkin.getMatricesArray 2).length = 2 * 16 ∧
    (witSkin.getMatricesArray 2).getD (0 * 16 + 0) 0 =
      (matToFlat (witSkin.jointMatrices.getD 0 mat4create)).getD 0 0 ∧
    (witSkin.getMatricesArray 2).getD (1 * 16 + 0) 0 = 0 :=
  ⟨(skin_getMatricesArray_spec witSkin 2).1,
   (skin_getMatricesArray_spec witSkin 2).2.1 0 0 (by decide) (by decide),
   (skin_getMatricesArray_spec witSkin 2).2.2 1 0 (by decide) (by decide) (by decide)⟩

/-- C4 counterexample: a skin with no joints serialised at capacity 1
yields sixteen zeros, not the identity matrix the claim's padding clause
demands (the identity's flat form starts with 1). -/
theorem skin_getMatricesArray_identity_padding_cex :
    Skin.getMatricesArray (⟨[], [], []⟩ : Skin ℚ) 1 ≠ matToFlat (mat4create : Mat4 ℚ) := by
  decide

/-- C8: updating an animation at any time ignores exactly the channels
whose target node index has no node: the update equals the update of the
clip restricted to channels with a valid target, so an invalid channel is
skipped while the others still apply. -/
theorem animation_update_skips_missing_channels
    (slerp : Vec4 ℚ → Vec4 ℚ → ℚ → Vec4 ℚ)
    (anim : Animation) (nodes : List (Node ℚ)) (time : ℚ) :
    anim.update slerp nodes time =
      Animation.update slerp
        ⟨anim.channels.filter (fun ch => decide (ch.targetNode < nodes.length)),
         anim.duration⟩ nodes time := by
  simp only [Animation.update]
  generalize jsMod time anim.duration = t
  have aux : ∀ (chs : List AnimationChannel) (ns : List (Node ℚ)),
      ns.length = nodes.length →
      chs.foldl
        (fun ns ch =>
          if ch.targetNode < ns.length then
            ns.set ch.targetNode (ch.apply slerp (ns.getD ch.targetNode Node.arb) t)
          else ns) ns =
      (chs.filter (fun ch => decide (ch.targetNode < nodes.length))).foldl
        (fun ns ch =>
          if ch.targetNode < ns.length then
            ns.set ch.targetNode (ch.apply slerp (ns.getD ch.targetNode Node.arb) t)
          else ns) ns := by
    intro chs
    induction chs with
    | nil => intro ns _; rfl
    | cons ch chs ih =>
      intro ns hlen
      by_cases h : ch.targetNode < nodes.length
      · rw [List.filter_cons_of_pos (by simpa using h), List.foldl_cons, List.foldl_cons,
          if_pos (show ch.targetNode < ns.length by omega)]
        exact ih _ (by rw [List.length_set]; exact hlen)
      · rw [List.filter_cons_of_neg (by simpa using h), List.foldl_cons,
          if_neg (by omega)]
        exact ih _ hlen
  exact aux anim.channels nodes rfl

lemma findKeyframesScan_safe (times : List ℚ) (t : ℚ) :
    ∀ (fuel i : ℕ), findKeyframesScan times t fuel i = (0, 0, 0) ∨
      ∃ j, i ≤ j ∧ j + 1 < times.length ∧
        times.getD j 0 ≤ t ∧ t < times.getD (j + 1) 0 ∧
        findKeyframesScan times t fuel i =
          (j, j + 1, (t - times.getD j 0) / (times.getD (j + 1) 0 - times.getD j 0)) := by
  intro fuel
  induction fuel with
  | zero => intro i; left; rfl
  | succ n ih =>
    intro i
    simp only [findKeyframesScan]
    by_cases h1 : i < times.length - 1
    · rw [if_pos h1]
      by_cases h2 : times.getD i 0 ≤ t ∧ t < times.getD (i + 1) 0
      · rw [if_pos h2]
        right
        exact ⟨i, le_refl _, by omega, h2.1, h2.2, rfl⟩
      · rw [if_neg h2]
        rcases ih (i + 1) with h | ⟨j, hj1, hj2, hj3, hj4, hj5⟩
        · left; exact h
        · right; exact ⟨j, by omega, hj2, hj3, hj4, hj5⟩
    · rw [if_neg h1]; left; rfl

/-- C10: for every channel with a non-empty time array and every time `t`,
`_findKeyframes` returns in-range indices (`prevIndex`, `nextIndex` below
the time count, `nextIndex` equal to `prevIndex` or its successor) and a
factor in `[0, 1)`; consequently the 3- and 4-component value reads
`values.subarray(index*k, index*k+k)` stay inside a value array sized to
the keyframe count. -/
theorem channel_findKeyframes_safe (ch : AnimationChannel) (t : ℚ)
    (hne : ch.times ≠ []) :
    (ch.findKeyframes t).1 < ch.times.length ∧
    (ch.findKeyframes t).2.1 < ch.times.length ∧
    ((ch.findKeyframes t).2.1 = (ch.findKeyframes t).1 ∨
      (ch.findKeyframes t).2.1 = (ch.findKeyframes t).1 + 1) ∧
    0 ≤ (ch.findKeyframes t).2.2 ∧ (ch.findKeyframes t).2.2 < 1 ∧
    3 * (ch.findKeyframes t).1 + 3 ≤ 3 * ch.times.length ∧
    3 * (ch.findKeyframes t).2.1 + 3 ≤ 3 * ch.times.length ∧
    4 * (ch.findKeyframes t).1 + 4 ≤ 4 * ch.times.length ∧
    4 * (ch.findKeyframes t).2.1 + 4 ≤ 4 * ch.times.length := by
  have hlen : 0 < ch.times.length := List.length_pos.2 hne
  simp only [AnimationChannel.findKeyframes]
  rw [if_neg (by omega)]
  by_cases hfirst : t ≤ ch.times.getD 0 0
  · rw [if_pos hfirst]
    dsimp only
    refine ⟨hlen, hlen, Or.inl rfl, le_refl _, one_pos, by omega, by omega, by omega, by omega⟩
  · rw [if_neg hfirst]
    by_cases hlast : ch.times.getD (ch.times.length - 1) 0 ≤ t
    · rw [if_pos hlast]
      dsimp only
      exact ⟨by omega, by omega, Or.inl rfl, le_refl _, one_pos, by omega, by omega,
        by omega, by omega⟩
    · rw [if_neg hlast]
      rcases findKeyframesScan_safe ch.times t ch.times.length 0 with h | ⟨j, _, hj2, hj3, hj4, hj5⟩
      · rw [h]
        dsimp only
        exact ⟨hlen, hlen, Or.inl rfl, le_refl _, one_pos, by omega, by omega, by omega, by omega⟩
      · rw [hj5]
        dsimp only
        have hd : ch.times.getD j 0 < ch.times.getD (j + 1) 0 := lt_of_le_of_lt hj3 hj4
        refine ⟨by omega, hj2, Or.inr rfl, ?_, ?_, by omega, by omega, by omega, by omega⟩
        · exact div_nonneg (by linarith) (by linarith)
        · rw [div_lt_one (by linarith)]
          linarith

/-- Witness for `channel_findKeyframes_safe` at a concrete channel. -/
def witChannel : AnimationChannel :=
  ⟨0, .translation, [0, 1, 2], [0, 0, 0, 1, 0, 0, 0, 0, 0]⟩

theorem channel_findKeyframes_safe_witness :
    witChannel.times ≠ [] ∧ (witChannel.findKeyframes 5).1 < witChannel.times.length :=
  ⟨by decide, (channel_findKeyframes_safe witChannel 5 (by decide)).1⟩

lemma sorted_getD_le (l : List ℚ) (hs : l.Sorted (· < ·)) (a b : ℕ)
    (hab : a ≤ b) (hb : b < l.length) : l.getD a 0 ≤ l.getD b 0 := by
  rcases eq_or_lt_of_le hab with rfl | h
  · exact le_refl _
  · rw [List.getD_eq_getElem _ _ (by omega), List.getD_eq_getElem _ _ hb]
    exact le_of_lt (List.pairwise_iff_getElem.1 hs a b (by omega) hb h)

lemma findKeyframesScan_bracket (times : List ℚ) (t : ℚ) (hsort : times.Sorted (· < ·))
    (i0 : ℕ) (h0 : i0 + 1 < times.length)
    (hl : times.getD i0 0 ≤ t) (hr : t < times.getD (i0 + 1) 0) :
    ∀ fuel i, i ≤ i0 → i0 - i < fuel →
      findKeyframesScan times t fuel i =
        (i0, i0 + 1, (t - times.getD i0 0) / (times.getD (i0 + 1) 0 - times.getD i0 0)) := by
  intro fuel
  induction fuel with
  | zero => intro i h1 h2; omega
  | succ n ih =>
    intro i h1 h2
    simp only [findKeyframesScan]
    rw [if_pos (by omega)]
    rcases eq_or_lt_of_le h1 with rfl | hlt
    · rw [if_pos ⟨hl, hr⟩]
    · have hfail : ¬(times.getD i 0 ≤ t ∧ t < times.getD (i + 1) 0) := by
        rintro ⟨-, hti⟩
        have hle : times.getD (i + 1) 0 ≤ times.getD i0 0 :=
          sorted_getD_le _ hsort _ _ (by omega) (by omega)
        linarith
      rw [if_neg hfail]
      exact ih (i + 1) (by omega) (by omega)

lemma exists_bracket (times : List ℚ) (t : ℚ) (hne : times ≠ [])
    (h0 : times.getD 0 0 < t) (hl : t < times.getD (times.length - 1) 0) :
    ∃ i, i + 1 < times.length ∧ times.getD i 0 ≤ t ∧ t < times.getD (i + 1) 0 := by
  have hpos : 0 < times.length := List.length_pos.2 hne
  have hP : ∃ j, t < times.getD j 0 := ⟨times.length - 1, hl⟩
  have hj0 : t < times.getD (Nat.find hP) 0 := Nat.find_spec hP
  have hj0pos : 0 < Nat.find hP := by
    rcases Nat.eq_zero_or_pos (Nat.find hP) with h | h
    · rw [h] at hj0; linarith
    · exact h
  have hnot : ¬ t < times.getD (Nat.find hP - 1) 0 := Nat.find_min hP (by omega)
  have hle : Nat.find hP ≤ times.length - 1 := Nat.find_min' hP hl
  refine ⟨Nat.find hP - 1, by omega, by linarith [not_lt.1 hnot], ?_⟩
  have : Nat.find hP - 1 + 1 = Nat.find hP := by omega
  rw [this]
  exact hj0

lemma vec3lerp_left (a b : Vec3 ℚ) : vec3lerp a b 0 = a := by
  funext i; simp [vec3lerp]

lemma vec3lerp_self (a : Vec3 ℚ) (f : ℚ) : vec3lerp a a f = a := by
  funext i; simp [vec3lerp]

lemma apply_translation_eq (slerp : Vec4 ℚ → Vec4 ℚ → ℚ → Vec4 ℚ)
    (ch : AnimationChannel) (node : Node ℚ) (t : ℚ)
    (hp : ch.targetPath = .translation) :
    (ch.apply slerp node t).translation =
      vec3lerp (ch.vec3At (ch.findKeyframes t).1) (ch.vec3At (ch.findKeyframes t).2.1)
        (ch.findKeyframes t).2.2 := by
  simp [AnimationChannel.apply, hp]

/-- C2: for a channel with non-empty, strictly increasing keyframe times:
sampling at `t` at or before the first keyframe returns keyframe 0 with
factor 0 (so a translation channel yields the first value exactly);
sampling at or after the last returns the last keyframe with factor 0;
and for `t` strictly inside the range the unique bracketing pair
`times[i] ≤ t < times[i+1]` exists and is selected, with factor
`(t - times[i]) / (times[i+1] - times[i])` interpolating the two
bracketing values. -/
theorem channel_sampling_spec (ch : AnimationChannel) (t : ℚ)
    (hne : ch.times ≠ []) (hsort : ch.times.Sorted (· < ·)) :
    (t ≤ ch.times.getD 0 0 →
      ch.findKeyframes t = (0, 0, 0) ∧
      ∀ slerp node, ch.targetPath = .translation →
        (ch.apply slerp node t).translation = ch.vec3At 0) ∧
    (ch.times.getD (ch.times.length - 1) 0 ≤ t →
      ch.findKeyframes t = (ch.times.length - 1, ch.times.length - 1, 0) ∧
      ∀ slerp node, ch.targetPath = .translation →
        (ch.apply slerp node t).translation = ch.vec3At (ch.times.length - 1)) ∧
    (∀ i, ch.times.getD 0 0 < t → t < ch.times.getD (ch.times.length - 1) 0 →
      i + 1 < ch.times.length →
      ch.times.getD i 0 ≤ t → t < ch.times.getD (i + 1) 0 →
      ch.findKeyframes t =
        (i, i + 1, (t - ch.times.getD i 0) / (ch.times.getD (i + 1) 0 - ch.times.getD i 0)) ∧
      ∀ slerp node, ch.targetPath = .translation →
        (ch.apply slerp node t).translation =
          vec3lerp (ch.vec3At i) (ch.vec3At (i + 1))
            ((t - ch.times.getD i 0) / (ch.times.getD (i + 1) 0 - ch.times.getD i 0))) ∧
    (ch.times.getD 0 0 < t → t < ch.times.getD (ch.times.length - 1) 0 →
      ∃ i, i + 1 < ch.times.length ∧ ch.times.getD i 0 ≤ t ∧ t < ch.times.getD (i + 1) 0) := by
  have hlen : 0 < ch.times.length := List.length_pos.2 hne
  refine ⟨?_, ?_, ?_, fun h1 h2 => exists_bracket ch.times t hne h1 h2⟩
  · intro hfirst
    have hfind : ch.findKeyframes t = (0, 0, 0) := by
      simp only [AnimationChannel.findKeyframes]
      rw [if_neg (by omega), if_pos hfirst]
    refine ⟨hfind, fun slerp node hp => ?_⟩
    rw [apply_translation_eq slerp ch node t hp, hfind]
    exact vec3lerp_self _ _
  · intro hlast
    have hfind : ch.findKeyframes t =
        (ch.times.length - 1, ch.times.length - 1, 0) := by
      simp only [AnimationChannel.findKeyframes]
      rw [if_neg (by omega)]
      by_cases hfirst : t ≤ ch.times.getD 0 0
      · have h01 : ch.times.getD 0 0 ≤ ch.times.getD (ch.times.length - 1) 0 :=
          sorted_getD_le _ hsort _ _ (by omega) (by omega)
        have : ch.times.length - 1 = 0 := by
          by_contra hne1
          have h0lt : ch.times.getD 0 0 < ch.times.getD (ch.times.length - 1) 0 := by
            rw [List.getD_eq_getElem _ _ (by omega : 0 < ch.times.length),
              List.getD_eq_getElem _ _ (by omega : ch.times.length - 1 < ch.times.length)]
            exact List.pairwise_iff_getElem.1 hsort 0 (ch.times.length - 1)
              (by omega) (by omega) (by omega)
          linarith
        rw [if_pos hfirst, this]
      · rw [if_neg hfirst, if_pos hlast]
    refine ⟨hfind, fun slerp node hp => ?_⟩
    rw [apply_translation_eq slerp ch node t hp, hfind]
    exact vec3lerp_self _ _
  · intro i h0 hl hi1 hbl hbr
    have hfind : ch.findKeyframes t =
        (i, i + 1, (t - ch.times.getD i 0) / (ch.times.getD (i + 1) 0 - ch.times.getD i 0)) := by
      simp only [AnimationChannel.findKeyframes]
      rw [if_neg (by omega), if_neg (by linarith), if_neg (by linarith)]
      exact findKeyframesScan_bracket ch.times t hsort i hi1 hbl hbr ch.times.length 0
        (by omega) (by omega)
    refine ⟨hfind, fun slerp node hp => ?_⟩
    rw [apply_translation_eq slerp ch node t hp, hfind]

/-- Witness for `channel_sampling_spec`: the spec's own scenario channel
(`times = [0,1,2]`, translation values `(0,0,0), (1,0,0), (0,0,0)`)
sampled at `t = 1/2` brackets between keyframes 0 and 1 with factor 1/2. -/
theorem channel_sampling_spec_witness :
    witChannel.times ≠ [] ∧ witChannel.times.Sorted (· < ·) ∧
    witChannel.findKeyframes (1 / 2) =
      (0, 1, ((1 : ℚ) / 2 - witChannel.times.getD 0 0) /
        (witChannel.times.getD 1 0 - witChannel.times.getD 0 0)) :=
  ⟨by simp [witChannel], by norm_num [witChannel, List.sorted_cons],
   ((channel_sampling_spec witChannel (1 / 2) (by simp [witChannel])
     (by norm_num [witChannel, List.sorted_cons])).2.2.1 0
     (by norm_num [witChannel, List.getD_cons_zero])
     (by norm_num [witChannel, List.getD_cons_succ, List.getD_cons_zero])
     (by norm_num [witChannel])
     (by norm_num [witChannel, List.getD_cons_zero])
     (by norm_num [witChannel, List.getD_cons_succ, List.getD_cons_zero])).1⟩

/-- C7: the per-draw uniform record is packed at exactly the claimed byte
offsets (stated at word granularity, word `w` = byte `4*w`, since every
write is 4-byte aligned): model at byte 0, view at 64, projection at 128,
normal matrix at 192, light direction at 256, base color at 272, the four
flags at 288, metallic factor at 304, roughness at 308, normal scale at
312, normal-texture flag at 316, emissive factor at 320 and
emissive-texture flag at 336 — and these are exactly the WGSL struct
offsets of `Uniforms` in src/shaders/main.wgsl, whose total size is the
368 bytes the staging buffer allocates. -/
theorem drawPrimitive_uniform_layout
    (modelMatrix viewMatrix projectionMatrix normalMatrix : Mat4 ℚ)
    (lightDir : Vec4 ℚ) (p : Primitive ℚ) (skinPresent : Bool) :
    wgslOffsets wgslUniformFields =
      [0, 64, 128, 192, 256, 272, 288, 304, 308, 312, 316, 320, 336, 352] ∧
    wgslStructSize wgslUniformFields = uniformBufferBytes ∧
    (∀ k : Fin 16, packUniforms modelMatrix viewMatrix projectionMatrix normalMatrix
      lightDir p skinPresent (0 / 4 + k.val) = (matToFlat modelMatrix).getD k.val 0) ∧
    (∀ k : Fin 16, packUniforms modelMatrix viewMatrix projectionMatrix normalMatrix
      lightDir p skinPresent (64 / 4 + k.val) = (matToFlat viewMatrix).getD k.val 0) ∧
    (∀ k : Fin 16, packUniforms modelMatrix viewMatrix projectionMatrix normalMatrix
      lightDir p skinPresent (128 / 4 + k.val) = (matToFlat projectionMatrix).getD k.val 0) ∧
    (∀ k : Fin 16, packUniforms modelMatrix viewMatrix projectionMatrix normalMatrix
      lightDir p skinPresent (192 / 4 + k.val) = (matToFlat normalMatrix).getD k.val 0) ∧
    (∀ k : Fin 4, packUniforms modelMatrix viewMatrix projectionMatrix normalMatrix
      lightDir p skinPresent (256 / 4 + k.val) = lightDir k) ∧
    (∀ k : Fin 4, packUniforms modelMatrix viewMatrix projectionMatrix normalMatrix
      lightDir p skinPresent (272 / 4 + k.val) = p.baseColor k) ∧
    (packUniforms modelMatrix viewMatrix projectionMatrix normalMatrix
      lightDir p skinPresent (288 / 4) = boolWord (p.hasSkinning && skinPresent)) ∧
    (packUniforms modelMatrix viewMatrix projectionMatrix normalMatrix
      lightDir p skinPresent (292 / 4) = boolWord p.hasTexture) ∧
    (packUniforms modelMatrix viewMatrix projectionMatrix normalMatrix
      lightDir p skinPresent (296 / 4) = boolWord p.hasNormals) ∧
    (packUniforms modelMatrix viewMatrix projectionMatrix normalMatrix
      lightDir p skinPresent (300 / 4) = boolWord p.hasMetallicRoughnessTexture) ∧
    (packUniforms modelMatrix viewMatrix projectionMatrix normalMatrix
      lightDir p skinPresent (304 / 4) = p.metallicFactor) ∧
    (packUniforms modelMatrix viewMatrix projectionMatrix normalMatrix
      lightDir p skinPresent (308 / 4) = p.roughnessFactor) ∧
    (packUniforms modelMatrix viewMatrix projectionMatrix normalMatrix
      lightDir p skinPresent (312 / 4) = p.normalScale) ∧
    (packUniforms modelMatrix viewMatrix projectionMatrix normalMatrix
      lightDir p skinPresent (316 / 4) = boolWord p.hasNormalTexture) ∧
    (packUniforms modelMatrix viewMatrix projectionMatrix normalMatrix
      lightDir p skinPresent (320 / 4) = p.emissiveFactor.getD 0 0) ∧
    (packUniforms modelMatrix viewMatrix projectionMatrix normalMatrix
      lightDir p skinPresent (324 / 4) = p.emissiveFactor.getD 1 0) ∧
    (packUniforms modelMatrix viewMatrix projectionMatrix normalMatrix
      lightDir p skinPresent (328 / 4) = p.emissiveFactor.getD 2 0) ∧
    (packUniforms modelMatrix viewMatrix projectionMatrix normalMatrix
      lightDir p skinPresent (332 / 4) = p.emissiveFactor.getD 3 1) ∧
    (packUniforms modelMatrix viewMatrix projectionMatrix normalMatrix
      lightDir p skinPresent (336 / 4) = boolWord p.hasEmissiveTexture) := by
  refine ⟨by decide, by decide, ?_, ?_, ?_, ?_, ?_, ?_, rfl, rfl, rfl, rfl, rfl, rfl,
    rfl, rfl, rfl, rfl, rfl, rfl, rfl⟩ <;>
    (intro k; fin_cases k <;> rfl)

lemma mem_foldl_append {α β : Type} (l : List β) (g : β → List α) (init : List α) (x : α) :
    x ∈ l.foldl (fun acc b => acc ++ g b) init ↔ x ∈ init ∨ ∃ b ∈ l, x ∈ g b := by
  induction l generalizing init with
  | nil => simp
  | cons b l ih =>
    rw [List.foldl_cons, ih]
    simp only [List.mem_append, List.mem_cons]
    constructor
    · rintro ((h | h) | ⟨b', hb', hx⟩)
      · exact Or.inl h
      · exact Or.inr ⟨b, Or.inl rfl, h⟩
      · exact Or.inr ⟨b', Or.inr hb', hx⟩
    · rintro (h | ⟨b', (rfl | hb'), hx⟩)
      · exact Or.inl (Or.inl h)
      · exact Or.inl (Or.inr hx)
      · exact Or.inr ⟨b', hb', hx⟩

lemma drawNodeCalls_mem (meshes : List (Mesh R)) (node : Node R) (c : DrawCall R)
    (hc : c ∈ drawNodeCalls meshes node) :
    ∃ mi insts, node.meshIndex = some mi ∧ node.primitiveInstances = some insts ∧
      c.prim ∈ insts ∧ c.skinIndex = node.skinIndex ∧
      c.modelMatrix =
        (if (meshes.getD mi ⟨[]⟩).primitives.any (·.hasSkinning) then mat4create
         else node.worldMatrix) := by
  unfold drawNodeCalls at hc
  rcases hmesh : node.meshIndex with _ | mi <;> rcases hinst : node.primitiveInstances with _ | insts <;>
    rw [hmesh, hinst] at hc <;> simp only [List.not_mem_nil] at hc
  rcases List.mem_map.1 hc with ⟨p, hp, rfl⟩
  exact ⟨mi, insts, rfl, rfl, hp, rfl, rfl⟩

lemma drawModelRec_mem (meshes : List (Mesh R)) (nodes : List (Node R)) :
    ∀ (fuel idx : ℕ) (c : DrawCall R), c ∈ drawModelRec meshes nodes fuel idx →
    ∃ i mi insts,
      (nodes.getD i Node.arb).meshIndex = some mi ∧
      (nodes.getD i Node.arb).primitiveInstances = some insts ∧
      c.prim ∈ insts ∧ c.skinIndex = (nodes.getD i Node.arb).skinIndex ∧
      c.modelMatrix =
        (if (meshes.getD mi ⟨[]⟩).primitives.any (·.hasSkinning) then mat4create
         else (nodes.getD i Node.arb).worldMatrix) := by
  intro fuel
  induction fuel with
  | zero => intro idx c hc; simp [drawModelRec] at hc
  | succ n ih =>
    intro idx c hc
    simp only [drawModelRec, List.mem_append] at hc
    rcases hc with hc | hc
    · rcases drawNodeCalls_mem meshes _ c hc with ⟨mi, insts, h⟩
      exact ⟨idx, mi, insts, h⟩
    · rcases (mem_foldl_append _ _ _ _).1 hc with h | ⟨child, _, hchild⟩
      · simp at h
      · exact ih child c hchild

/-- C3 (amended): in the draw walk the effective model matrix is chosen
per node, not per primitive: every draw call comes from some node whose
primitive instances contain the drawn primitive, and its model matrix is
the identity when ANY primitive of that node's mesh uses skinning — also
for the non-skinned primitives of such a mixed mesh — and the node's
world matrix only when no primitive of the mesh uses skinning. -/
theorem drawModel_effective_model_matrix (meshes : List (Mesh R))
    (nodes : List (Node R)) (roots : List ℕ) (fuel : ℕ) (c : DrawCall R)
    (hc : c ∈ drawModel meshes nodes roots fuel) :
    ∃ i mi insts,
      (nodes.getD i Node.arb).meshIndex = some mi ∧
      (nodes.getD i Node.arb).primitiveInstances = some insts ∧
      c.prim ∈ insts ∧ c.skinIndex = (nodes.getD i Node.arb).skinIndex ∧
      c.modelMatrix =
        (if (meshes.getD mi ⟨[]⟩).primitives.any (·.hasSkinning) then mat4create
         else (nodes.getD i Node.arb).worldMatrix) := by
  rcases (mem_foldl_append _ _ _ _).1 hc with h | ⟨r, _, hr⟩
  · simp at h
  · exact drawModelRec_mem meshes nodes fuel r c hr

/-- Concrete skinned primitive for the C3 counterexample. -/
def cexPrimSkinned : Primitive ℚ :=
  ⟨true, fun _ => 1, false, false, false, 1, 1, 1, false, [0, 0, 0, 1], false⟩

/-- Concrete non-skinned sibling primitive for the C3 counterexample. -/
def cexPrimPlain : Primitive ℚ :=
  ⟨false, fun _ => 1, false, false, false, 1, 1, 1, false, [0, 0, 0, 1], false⟩

/-- A mesh mixing one skinned and one non-skinned primitive. -/
def cexMesh : Mesh ℚ := ⟨[cexPrimSkinned, cexPrimPlain]⟩

/-- A non-identity world matrix (translation by (0,0,5)). -/
def cexWorld : Mat4 ℚ :=
  ![![1, 0, 0, 0], ![0, 1, 0, 0], ![0, 0, 1, 5], ![0, 0, 0, 1]]

/-- A node carrying the mixed mesh with a non-identity world matrix. -/
def cexNode : Node ℚ :=
  { Node.arb with
    meshIndex := some 0
    primitiveInstances := some [cexPrimSkinned, cexPrimPlain]
    worldMatrix := cexWorld }

/-- C3 counterexample: in a mesh mixing a skinned and a non-skinned
primitive under a node with a non-identity world matrix, the non-skinned
primitive is ALSO drawn with the identity model matrix, not with the
node's world matrix as the claim states. -/
theorem drawModel_mixed_mesh_cex :
    cexMesh.primitives.any (·.hasSkinning) = true ∧
    cexNode.worldMatrix ≠ mat4create ∧
    ((drawModel [cexMesh] [cexNode] [0] 1).getD 1
      ⟨cexPrimPlain, mat4create, none⟩).prim.hasSkinning = false ∧
    ((drawModel [cexMesh] [cexNode] [0] 1).getD 1
      ⟨cexPrimPlain, mat4create, none⟩).modelMatrix ≠ cexNode.worldMatrix := by
  refine ⟨rfl, by decide, rfl, by decide⟩

/-- Witness for `drawModel_effective_model_matrix` at the concrete mixed
mesh: the first emitted draw call is accounted for by node 0. -/
theorem drawModel_effective_model_matrix_witness :
    (⟨cexPrimSkinned, mat4create, none⟩ : DrawCall ℚ) ∈ drawModel [cexMesh] [cexNode] [0] 1 ∧
    ∃ i mi insts,
      (([cexNode] : List (Node ℚ)).getD i Node.arb).meshIndex = some mi ∧
      (([cexNode] : List (Node ℚ)).getD i Node.arb).primitiveInstances = some insts ∧
      (⟨cexPrimSkinned, mat4create, none⟩ : DrawCall ℚ).prim ∈ insts ∧
      (⟨cexPrimSkinned, mat4create, none⟩ : DrawCall ℚ).skinIndex =
        (([cexNode] : List (Node ℚ)).getD i Node.arb).skinIndex ∧
      (⟨cexPrimSkinned, mat4create, none⟩ : DrawCall ℚ).modelMatrix =
        (if (([cexMesh] : List (Mesh ℚ)).getD mi ⟨[]⟩).primitives.any (·.hasSkinning)
         then mat4create
         else (([cexNode] : List (Node ℚ)).getD i Node.arb).worldMatrix) :=
  have hmem : (⟨cexPrimSkinned, mat4create, none⟩ : DrawCall ℚ) ∈
      drawModel [cexMesh] [cexNode] [0] 1 := by
    show (⟨cexPrimSkinned, mat4create, none⟩ : DrawCall ℚ) ∈
      ([⟨cexPrimSkinned, mat4create, none⟩, ⟨cexPrimPlain, mat4create, none⟩] :
        List (DrawCall ℚ))
    exact List.mem_cons_self _ _
  ⟨hmem, drawModel_effective_model_matrix [cexMesh] [cexNode] [0] 1 _ hmem⟩

/-- C5: evaluation at the failing input.  An interleaved accessor of
signed 16-bit components (`componentType` SHORT, count 2, one component,
stride 4 over the bytes `01 00 00 00 02 00 00 00`) should de-interleave to
the values `[1, 2]` read from `baseOffset + i*stride`, but
`_extractInterleavedData`'s if/else chain has no `Int16Array` branch and
returns the zero-initialised array `[0, 0]`; with the tightly-packed
stride 2 the interleaved path still returns `[0, 0]` while the packed
typed-array path returns `[1, 2]`, so the two paths disagree as well. -/
theorem interleaved_signed_extraction_bug :
    extractInterleavedData [1, 0, 0, 0, 2, 0, 0, 0] 0 2 1 4 .short = [0, 0] ∧
    stridedReadSpec [1, 0, 0, 0, 2, 0, 0, 0] 0 2 1 4 .short = [1, 2] ∧
    getAccessorData [1, 0, 0, 0, 2, 0, 0, 0] ⟨0, 2, 1, 4, .short⟩ = [0, 0] ∧
    extractInterleavedData [1, 0, 2, 0] 0 2 1 2 .short = [0, 0] ∧
    packedExtract [1, 0, 2, 0] ⟨0, 2, 1, 2, .short⟩ = [1, 2] := by
  decide

lemma getD_set_eq {α : Type} (l : List α) (i : ℕ) (a d : α) (h : i < l.length) :
    (l.set i a).getD i d = a := by
  rw [List.getD_eq_getElem _ _ (by simpa using h)]
  exact List.getElem_set_self _

lemma getD_set_ne {α : Type} (l : List α) (i j : ℕ) (a d : α) (h : i ≠ j) :
    (l.set i a).getD j d = l.getD j d := by
  rw [List.getD_eq_getElem?_getD, List.getD_eq_getElem?_getD, List.getElem?_set_ne h]

/-- The update-invariant part of a node array: world-matrix updates touch
only `matrix` and `worldMatrix`, so TRS and topology are preserved. -/
def shapeEq (a b : List (Node R)) : Prop :=
  a.length = b.length ∧ ∀ k : ℕ,
    (a.getD k Node.arb).translation = (b.getD k Node.arb).translation ∧
    (a.getD k Node.arb).rotation = (b.getD k Node.arb).rotation ∧
    (a.getD k Node.arb).scale = (b.getD k Node.arb).scale ∧
    (a.getD k Node.arb).children = (b.getD k Node.arb).children

lemma shapeEq_refl (a : List (Node R)) : shapeEq a a :=
  ⟨rfl, fun _ => ⟨rfl, rfl, rfl, rfl⟩⟩

lemma shapeEq_trans {a b c : List (Node R)} (h1 : shapeEq a b) (h2 : shapeEq b c) :
    shapeEq a c := by
  refine ⟨h1.1.trans h2.1, fun k => ?_⟩
  obtain ⟨x1, x2, x3, x4⟩ := h1.2 k
  obtain ⟨y1, y2, y3, y4⟩ := h2.2 k
  exact ⟨x1.trans y1, x2.trans y2, x3.trans y3, x4.trans y4⟩

lemma shapeEq_localMatrix {a b : List (Node R)} (h : shapeEq a b) (k : ℕ) :
    localMatrix (a.getD k Node.arb) = localMatrix (b.getD k Node.arb) := by
  obtain ⟨h1, h2, h3, -⟩ := h.2 k
  rw [localMatrix, localMatrix, h1, h2, h3]

lemma updateRecursive_length (f : Bool) :
    ∀ (fuel : ℕ) (ns : List (Node R)) (idx : ℕ) (p : Mat4 R),
      (updateRecursive f fuel ns idx p).length = ns.length := by
  intro fuel
  induction fuel with
  | zero => intro ns idx p; rfl
  | succ n ih =>
    intro ns idx p
    simp only [updateRecursive]
    have aux : ∀ (l : List ℕ) (ms : List (Node R)),
        (l.foldl (fun a c => updateRecursive f n a c ((a.getD idx Node.arb).worldMatrix))
          ms).length = ms.length := by
      intro l
      induction l with
      | nil => intro ms; rfl
      | cons c cs ihl => intro ms; rw [List.foldl_cons, ihl, ih]
    rw [aux, List.length_set]

lemma node_update_shape (n : Node R) (p : Mat4 R) :
    (n.updateWorldMatrix p).translation = n.translation ∧
    (n.updateWorldMatrix p).rotation = n.rotation ∧
    (n.updateWorldMatrix p).scale = n.scale ∧
    (n.updateWorldMatrix p).children = n.children :=
  ⟨rfl, rfl, rfl, rfl⟩

lemma updateRecursive_shape (f : Bool) :
    ∀ (fuel : ℕ) (ns : List (Node R)) (idx : ℕ) (p : Mat4 R),
      shapeEq (updateRecursive f fuel ns idx p) ns := by
  intro fuel
  induction fuel with
  | zero => intro ns idx p; exact shapeEq_refl ns
  | succ n ih =>
    intro ns idx p
    simp only [updateRecursive]
    have hset : shapeEq
        (ns.set idx (if f || !(ns.getD idx Node.arb).hasOriginalMatrix then
          (ns.getD idx Node.arb).updateWorldMatrix p
        else { ns.getD idx Node.arb with
               worldMatrix := matMul p (ns.getD idx Node.arb).matrix })) ns := by
      refine ⟨List.length_set _ _ _, fun k => ?_⟩
      by_cases hk : idx = k
      · subst hk
        by_cases hlen : idx < ns.length
        · rw [getD_set_eq _ _ _ _ hlen]
          by_cases hcond : f || !(ns.getD idx Node.arb).hasOriginalMatrix
          · rw [if_pos hcond]; exact node_update_shape _ _
          · rw [if_neg hcond]; exact ⟨rfl, rfl, rfl, rfl⟩
        · rw [List.set_eq_of_length_le (by omega)]
          exact ⟨rfl, rfl, rfl, rfl⟩
      · rw [getD_set_ne _ _ _ _ _ hk]
        exact ⟨rfl, rfl, rfl, rfl⟩
    have aux : ∀ (l : List ℕ) (ms : List (Node R)), shapeEq ms ns →
        shapeEq (l.foldl (fun a c => updateRecursive f n a c
          ((a.getD idx Node.arb).worldMatrix)) ms) ns := by
      intro l
      induction l with
      | nil => intro ms h; exact h
      | cons c cs ihl =>
        intro ms h
        rw [List.foldl_cons]
        exact ihl _ (shapeEq_trans (ih _ _ _) h)
    exact aux _ _ hset

lemma dfsAux_shape_congr {a b : List (Node R)} (h : shapeEq a b) :
    ∀ (fuel idx : ℕ), dfsAux a fuel idx = dfsAux b fuel idx := by
  intro fuel
  induction fuel with
  | zero => intro idx; rfl
  | succ n ih =>
    intro idx
    simp only [dfsAux]
    rw [(h.2 idx).2.2.2]
    have aux : ∀ (l : List ℕ) (acc : List ℕ),
        l.foldl (fun acc c => acc ++ dfsAux a n c) acc =
        l.foldl (fun acc c => acc ++ dfsAux b n c) acc := by
      intro l
      induction l with
      | nil => intro acc; rfl
      | cons c cs ihl => intro acc; rw [List.foldl_cons, List.foldl_cons, ih c, ihl]
    rw [aux]

lemma foldl_append_eq_flatten {α β : Type} (l : List β) (g : β → List α) (init : List α) :
    l.foldl (fun acc b => acc ++ g b) init = init ++ (l.map g).flatten := by
  induction l generalizing init with
  | nil => simp
  | cons b bs ih => simp [ih, List.append_assoc]

lemma dfsAux_succ (ns : List (Node R)) (n idx : ℕ) :
    dfsAux ns (n + 1) idx =
      idx :: ((ns.getD idx Node.arb).children.map (dfsAux ns n)).flatten := by
  simp only [dfsAux]
  rw [foldl_append_eq_flatten, List.nil_append]

/-- Last element of a child chain `idx :: l`. -/
def chainLast (idx : ℕ) (l : List ℕ) : ℕ := l.getLastD idx

lemma chainLast_cons (i j : ℕ) (l : List ℕ) : chainLast i (j :: l) = chainLast j l := by
  simp only [chainLast, List.getLastD_eq_getLast?]
  cases l with
  | nil => rfl
  | cons x xs =>
    rw [List.getLast?_cons_cons]
    obtain ⟨y, hy⟩ := Option.isSome_iff_exists.1
      (List.getLast?_isSome.2 (by simp) : (x :: xs).getLast?.isSome)
    rw [hy]; rfl

lemma chainLast_mem_dfs (ns : List (Node R)) :
    ∀ (fuel : ℕ) (idx : ℕ) (l : List ℕ), ChildChain ns (idx :: l) →
      (idx :: l).length ≤ fuel → chainLast idx l ∈ dfsAux ns fuel idx := by
  intro fuel
  induction fuel with
  | zero => intro idx l _ h; simp at h
  | succ n ih =>
    intro idx l hc hlen
    rw [dfsAux_succ]
    cases hc with
    | single => simp [chainLast]
    | cons i j l' hj htail =>
      have hmem := ih j l' htail (by simpa using hlen)
      rw [chainLast_cons]
      exact List.mem_cons_of_mem _ (List.mem_flatten.2 ⟨dfsAux ns n j, List.mem_map_of_mem _ hj, hmem⟩)

lemma childChain_shape_congr {a b : List (Node R)} (h : shapeEq a b) :
    ∀ l, ChildChain b l → ChildChain a l := by
  intro l hc
  induction hc with
  | single i => exact ChildChain.single i
  | cons i j l' hj htail ih =>
    exact ChildChain.cons i j l' (by rw [(h.2 i).2.2.2]; exact hj) ih

lemma updateNode_children (f : Bool) (node : Node R) (p : Mat4 R) :
    (if f || !node.hasOriginalMatrix then node.updateWorldMatrix p
     else { node with worldMatrix := matMul p node.matrix }).children = node.children := by
  split <;> rfl

lemma set_update_shape (f : Bool) (ns : List (Node R)) (idx : ℕ) (p : Mat4 R) :
    shapeEq
      (ns.set idx (if f || !(ns.getD idx Node.arb).hasOriginalMatrix then
        (ns.getD idx Node.arb).updateWorldMatrix p
      else { ns.getD idx Node.arb with
             worldMatrix := matMul p (ns.getD idx Node.arb).matrix })) ns := by
  refine ⟨List.length_set _ _ _, fun k => ?_⟩
  by_cases hk : idx = k
  · subst hk
    by_cases hlen : idx < ns.length
    · rw [getD_set_eq _ _ _ _ hlen]
      split
      · exact node_update_shape _ _
      · exact ⟨rfl, rfl, rfl, rfl⟩
    · rw [List.set_eq_of_length_le (by omega)]
      exact ⟨rfl, rfl, rfl, rfl⟩
  · rw [getD_set_ne _ _ _ _ _ hk]
    exact ⟨rfl, rfl, rfl, rfl⟩

lemma updateRecursive_untouched (f : Bool) :
    ∀ (fuel : ℕ) (ns : List (Node R)) (idx : ℕ) (p : Mat4 R) (k : ℕ),
      k ∉ dfsAux ns fuel idx →
      (updateRecursive f fuel ns idx p).getD k Node.arb = ns.getD k Node.arb := by
  intro fuel
  induction fuel with
  | zero => intro ns idx p k _; rfl
  | succ n ih =>
    intro ns idx p k hk
    rw [dfsAux_succ, List.mem_cons, not_or] at hk
    obtain ⟨hk1, hk2⟩ := hk
    simp only [updateRecursive]
    have aux : ∀ (l : List ℕ) (ms : List (Node R)), shapeEq ms ns →
        (∀ c ∈ l, k ∉ dfsAux ns n c) →
        (l.foldl (fun a c => updateRecursive f n a c
          ((a.getD idx Node.arb).worldMatrix)) ms).getD k Node.arb = ms.getD k Node.arb := by
      intro l
      induction l with
      | nil => intro ms _ _; rfl
      | cons c cs ihl =>
        intro ms hshape hnot
        rw [List.foldl_cons]
        have hc : k ∉ dfsAux ms n c := by
          rw [dfsAux_shape_congr hshape]
          exact hnot c (List.mem_cons_self c cs)
        rw [ihl (updateRecursive f n ms c _)
          (shapeEq_trans (updateRecursive_shape f n ms c _) hshape)
          (fun c' hc' => hnot c' (List.mem_cons_of_mem _ hc'))]
        exact ih ms c _ k hc
    refine (aux _ _ (set_update_shape f ns idx p) ?_).trans ?_
    · intro c hc
      rw [updateNode_children] at hc
      intro hmem
      exact hk2 (List.mem_flatten.2 ⟨dfsAux ns n c, List.mem_map_of_mem _ hc, hmem⟩)
    · exact getD_set_ne _ _ _ _ _ (fun h => hk1 (h ▸ rfl))

lemma foldl_step_shape (f : Bool) (n : ℕ) (ns : List (Node R)) (idx0 : ℕ) :
    ∀ (l : List ℕ) (ms : List (Node R)), shapeEq ms ns →
      shapeEq (l.foldl (fun a c => updateRecursive f n a c
        ((a.getD idx0 Node.arb).worldMatrix)) ms) ns := by
  intro l
  induction l with
  | nil => intro ms h; exact h
  | cons c cs ihl =>
    intro ms h
    rw [List.foldl_cons]
    exact ihl _ (shapeEq_trans (updateRecursive_shape f n ms c _) h)

lemma foldl_step_untouched (f : Bool) (n : ℕ) (ns : List (Node R)) (idx0 k : ℕ) :
    ∀ (l : List ℕ) (ms : List (Node R)), shapeEq ms ns →
      (∀ c ∈ l, k ∉ dfsAux ns n c) →
      (l.foldl (fun a c => updateRecursive f n a c
        ((a.getD idx0 Node.arb).worldMatrix)) ms).getD k Node.arb = ms.getD k Node.arb := by
  intro l
  induction l with
  | nil => intro ms _ _; rfl
  | cons c cs ihl =>
    intro ms hshape hnot
    rw [List.foldl_cons]
    rw [ihl (updateRecursive f n ms c _)
      (shapeEq_trans (updateRecursive_shape f n ms c _) hshape)
      (fun c' hc' => hnot c' (List.mem_cons_of_mem _ hc'))]
    apply updateRecursive_untouched
    rw [dfsAux_shape_congr hshape]
    exact hnot c (List.mem_cons_self c cs)

lemma nodup_flatten_part {α : Type} :
    ∀ (L : List (List α)), L.flatten.Nodup → ∀ l ∈ L, l.Nodup := by
  intro L
  induction L with
  | nil => intro _ l hl; simp at hl
  | cons a L ih =>
    intro h l hl
    rw [List.flatten_cons, List.nodup_append] at h
    rcases List.mem_cons.1 hl with rfl | hl'
    · exact h.1
    · exact ih h.2.1 l hl'

lemma foldl_local_congr {a b : List (Node R)} (h : shapeEq a b) :
    ∀ (l : List ℕ) (p : Mat4 R),
      l.foldl (fun acc j => matMul acc (localMatrix (a.getD j Node.arb))) p =
      l.foldl (fun acc j => matMul acc (localMatrix (b.getD j Node.arb))) p := by
  intro l
  induction l with
  | nil => intro p; rfl
  | cons j l' ihl =>
    intro p
    rw [List.foldl_cons, List.foldl_cons, shapeEq_localMatrix h j, ihl]

lemma set_updateWorld_shape (ns : List (Node R)) (idx : ℕ) (p : Mat4 R) :
    shapeEq (ns.set idx ((ns.getD idx Node.arb).updateWorldMatrix p)) ns := by
  refine ⟨List.length_set _ _ _, fun k => ?_⟩
  by_cases hk : idx = k
  · subst hk
    by_cases hlen : idx < ns.length
    · rw [getD_set_eq _ _ _ _ hlen]
      exact node_update_shape _ _
    · rw [List.set_eq_of_length_le (by omega)]
      exact ⟨rfl, rfl, rfl, rfl⟩
  · rw [getD_set_ne _ _ _ _ _ hk]
    exact ⟨rfl, rfl, rfl, rfl⟩

lemma updateRecursive_chain_prod :
    ∀ (fuel : ℕ) (ns : List (Node R)) (idx : ℕ) (p : Mat4 R) (l : List ℕ),
      ChildChain ns (idx :: l) →
      (idx :: l).length ≤ fuel →
      (dfsAux ns fuel idx).Nodup →
      (∀ k ∈ dfsAux ns fuel idx, k < ns.length) →
      ((updateRecursive true fuel ns idx p).getD (chainLast idx l) Node.arb).worldMatrix
        = (idx :: l).foldl (fun acc j => matMul acc (localMatrix (ns.getD j Node.arb))) p := by
  intro fuel
  induction fuel with
  | zero => intro ns idx p l _ hlen _ _; simp at hlen
  | succ n ih =>
    intro ns idx p l hchain hlen hnd hb
    rw [dfsAux_succ] at hnd hb
    have hidx_len : idx < ns.length := hb idx (List.mem_cons_self _ _)
    obtain ⟨hndhead, hndtail⟩ := List.nodup_cons.1 hnd
    simp only [updateRecursive]
    rw [if_pos (show (true || !(ns.getD idx Node.arb).hasOriginalMatrix) = true by simp)]
    have hch : ((ns.getD idx Node.arb).updateWorldMatrix p).children =
        (ns.getD idx Node.arb).children := rfl
    rw [hch]
    have hms0 : shapeEq (ns.set idx ((ns.getD idx Node.arb).updateWorldMatrix p)) ns :=
      set_updateWorld_shape ns idx p
    have hms0idx : (ns.set idx ((ns.getD idx Node.arb).updateWorldMatrix p)).getD idx Node.arb
        = (ns.getD idx Node.arb).updateWorldMatrix p := getD_set_eq _ _ _ _ hidx_len
    have hnotidx : ∀ c ∈ (ns.getD idx Node.arb).children, idx ∉ dfsAux ns n c := by
      intro c hc hmem
      exact hndhead (List.mem_flatten.2 ⟨dfsAux ns n c, List.mem_map_of_mem _ hc, hmem⟩)
    cases hchain with
    | single =>
      rw [show chainLast idx [] = idx from rfl,
        foldl_step_untouched true n ns idx idx _ _ hms0 hnotidx, hms0idx]
      rfl
    | cons i j l' hj htail =>
      rw [chainLast_cons]
      obtain ⟨pre, post, hsplit⟩ := List.append_of_mem hj
      rw [hsplit, List.foldl_append, List.foldl_cons]
      have hpre_sub : ∀ c ∈ pre, c ∈ (ns.getD idx Node.arb).children := by
        rw [hsplit]; intro c hc; exact List.mem_append_left _ hc
      have hmsPre_shape : shapeEq
          (pre.foldl (fun a c => updateRecursive true n a c
            ((a.getD idx Node.arb).worldMatrix))
            (ns.set idx ((ns.getD idx Node.arb).updateWorldMatrix p))) ns :=
        foldl_step_shape true n ns idx pre _ hms0
      have hmsPre_idx : (pre.foldl (fun a c => updateRecursive true n a c
            ((a.getD idx Node.arb).worldMatrix))
            (ns.set idx ((ns.getD idx Node.arb).updateWorldMatrix p))).getD idx Node.arb
          = (ns.getD idx Node.arb).updateWorldMatrix p := by
        rw [foldl_step_untouched true n ns idx idx pre _ hms0
          (fun c hc => hnotidx c (hpre_sub c hc)), hms0idx]
      have hlen' : (j :: l').length ≤ n := by simp at hlen ⊢; omega
      have hflat : ((ns.getD idx Node.arb).children.map (dfsAux ns n)).flatten.Nodup := hndtail
      have hjdfs_nodup : (dfsAux ns n j).Nodup :=
        nodup_flatten_part _ hflat _ (List.mem_map_of_mem _ hj)
      have hjb : ∀ k ∈ dfsAux ns n j, k < ns.length := fun k hk =>
        hb k (List.mem_cons_of_mem _
          (List.mem_flatten.2 ⟨_, List.mem_map_of_mem _ hj, hk⟩))
      have hIH := ih (pre.foldl (fun a c => updateRecursive true n a c
            ((a.getD idx Node.arb).worldMatrix))
            (ns.set idx ((ns.getD idx Node.arb).updateWorldMatrix p))) j
          ((pre.foldl (fun a c => updateRecursive true n a c
            ((a.getD idx Node.arb).worldMatrix))
            (ns.set idx ((ns.getD idx Node.arb).updateWorldMatrix p))).getD idx
              Node.arb).worldMatrix l'
          (childChain_shape_congr hmsPre_shape _ htail) hlen'
          (by rw [dfsAux_shape_congr hmsPre_shape]; exact hjdfs_nodup)
          (by intro k hk
              rw [dfsAux_shape_congr hmsPre_shape] at hk
              rw [hmsPre_shape.1]
              exact hjb k hk)
      have hdisj : ∀ c ∈ post, chainLast j l' ∉ dfsAux ns n c := by
        have htgt_mem : chainLast j l' ∈ dfsAux ns n j :=
          chainLast_mem_dfs ns n j l' htail hlen'
        intro c hc hmem
        have hflat2 : ((pre ++ j :: post).map (dfsAux ns n)).flatten.Nodup := by
          rw [← hsplit]; exact hflat
        rw [List.map_append, List.flatten_append, List.map_cons, List.flatten_cons] at hflat2
        have h2 := (List.nodup_append.1 hflat2).2.1
        have h3 := (List.nodup_append.1 h2).2.2
        exact h3 htgt_mem (List.mem_flatten.2 ⟨_, List.mem_map_of_mem _ hc, hmem⟩)
      rw [foldl_step_untouched true n ns idx (chainLast j l') post _
        (shapeEq_trans (updateRecursive_shape true n _ j _) hmsPre_shape) hdisj]
      rw [hIH, foldl_local_congr hmsPre_shape, hmsPre_idx]
      conv_rhs => rw [List.foldl_cons]
      rfl

lemma dfsRoots_eq_flatten (ns : List (Node R)) (fuel : ℕ) (roots : List ℕ) :
    dfsRoots ns fuel roots = (roots.map (dfsAux ns fuel)).flatten := by
  rw [dfsRoots, foldl_append_eq_flatten, List.nil_append]

lemma foldl_root_shape (fuel : ℕ) (ns : List (Node R)) (base : Mat4 R) :
    ∀ (l : List ℕ) (ms : List (Node R)), shapeEq ms ns →
      shapeEq (l.foldl (fun a r => updateRecursive true fuel a r base) ms) ns := by
  intro l
  induction l with
  | nil => intro ms h; exact h
  | cons r rs ihl =>
    intro ms h
    rw [List.foldl_cons]
    exact ihl _ (shapeEq_trans (updateRecursive_shape true fuel ms r base) h)

lemma foldl_root_untouched (fuel : ℕ) (ns : List (Node R)) (base : Mat4 R) (k : ℕ) :
    ∀ (l : List ℕ) (ms : List (Node R)), shapeEq ms ns →
      (∀ r ∈ l, k ∉ dfsAux ns fuel r) →
      (l.foldl (fun a r => updateRecursive true fuel a r base) ms).getD k Node.arb
        = ms.getD k Node.arb := by
  intro l
  induction l with
  | nil => intro ms _ _; rfl
  | cons r rs ihl =>
    intro ms hshape hnot
    rw [List.foldl_cons]
    rw [ihl (updateRecursive true fuel ms r base)
      (shapeEq_trans (updateRecursive_shape true fuel ms r base) hshape)
      (fun r' hr' => hnot r' (List.mem_cons_of_mem _ hr'))]
    apply updateRecursive_untouched
    rw [dfsAux_shape_congr hshape]
    exact hnot r (List.mem_cons_self r rs)

lemma updateWorldMatrices_chain_prod (ns : List (Node R)) (roots : List ℕ)
    (base : Mat4 R) (fuel : ℕ)
    (hnd : (dfsRoots ns fuel roots).Nodup)
    (hb : ∀ k ∈ dfsRoots ns fuel roots, k < ns.length)
    (r : ℕ) (l : List ℕ) (hr : r ∈ roots) (hchain : ChildChain ns (r :: l))
    (hlen : (r :: l).length ≤ fuel) :
    ((updateWorldMatrices true fuel ns roots base).getD (chainLast r l) Node.arb).worldMatrix
      = (r :: l).foldl (fun acc j => matMul acc (localMatrix (ns.getD j Node.arb))) base := by
  rw [dfsRoots_eq_flatten] at hnd hb
  obtain ⟨pre, post, hsplit⟩ := List.append_of_mem hr
  rw [updateWorldMatrices, hsplit, List.foldl_append, List.foldl_cons]
  have hmsPre_shape : shapeEq
      (pre.foldl (fun a r' => updateRecursive true fuel a r' base) ns) ns :=
    foldl_root_shape fuel ns base pre ns (shapeEq_refl ns)
  have hrdfs_nodup : (dfsAux ns fuel r).Nodup :=
    nodup_flatten_part _ hnd _ (List.mem_map_of_mem _ hr)
  have hrb : ∀ k ∈ dfsAux ns fuel r, k < ns.length := fun k hk =>
    hb k (List.mem_flatten.2 ⟨_, List.mem_map_of_mem _ hr, hk⟩)
  have hprod := updateRecursive_chain_prod fuel
    (pre.foldl (fun a r' => updateRecursive true fuel a r' base) ns) r base l
    (childChain_shape_congr hmsPre_shape _ hchain) hlen
    (by rw [dfsAux_shape_congr hmsPre_shape]; exact hrdfs_nodup)
    (by intro k hk
        rw [dfsAux_shape_congr hmsPre_shape] at hk
        rw [hmsPre_shape.1]
        exact hrb k hk)
  have hdisj : ∀ c ∈ post, chainLast r l ∉ dfsAux ns fuel c := by
    have htgt_mem : chainLast r l ∈ dfsAux ns fuel r :=
      chainLast_mem_dfs ns fuel r l hchain hlen
    intro c hc hmem
    have hflat2 : ((pre ++ r :: post).map (dfsAux ns fuel)).flatten.Nodup := by
      rw [← hsplit]; exact hnd
    rw [List.map_append, List.flatten_append, List.map_cons, List.flatten_cons] at hflat2
    have h2 := (List.nodup_append.1 hflat2).2.1
    have h3 := (List.nodup_append.1 h2).2.2
    exact h3 htgt_mem (List.mem_flatten.2 ⟨_, List.mem_map_of_mem _ hc, hmem⟩)
  rw [foldl_root_untouched fuel ns base (chainLast r l) post _
    (shapeEq_trans (updateRecursive_shape true fuel _ r base) hmsPre_shape) hdisj]
  rw [hprod, foldl_local_congr hmsPre_shape]

lemma childChain_snoc (ns : List (Node R)) :
    ∀ (l : List ℕ) (i c : ℕ), ChildChain ns (i :: l) →
      c ∈ (ns.getD (chainLast i l) Node.arb).children →
      ChildChain ns (i :: (l ++ [c])) := by
  intro l
  induction l with
  | nil =>
    intro i c _ hc
    exact ChildChain.cons i c [] hc (ChildChain.single c)
  | cons j l' ih =>
    intro i c hchain hc
    rw [chainLast_cons] at hc
    cases hchain with
    | cons _ _ _ hj htail =>
      exact ChildChain.cons i j (l' ++ [c]) hj (ih j c htail hc)

lemma chainLast_snoc : ∀ (l : List ℕ) (i c : ℕ), chainLast i (l ++ [c]) = c := by
  intro l
  induction l with
  | nil => intro i c; rfl
  | cons x xs ih =>
    intro i c
    rw [List.cons_append, chainLast_cons, ih]

/-- C6: after `updateWorldMatrices(baseTransform)` with forced
recomputation (as `Model.update` invokes it each frame), over a node
forest (depth-first visit list duplicate-free and index-valid, with
enough fuel for the recursion): every root's world matrix is
`baseTransform * compose(T,R,S)` of the root — the base transform acts as
the implicit parent — and every reachable child's world matrix is its
parent's world matrix times the local matrix recomposed from the child's
current translation, rotation and scale. -/
theorem sceneGraph_updateWorldMatrices_spec (ns : List (Node R)) (roots : List ℕ)
    (base : Mat4 R) (fuel : ℕ)
    (hnd : (dfsRoots ns fuel roots).Nodup)
    (hb : ∀ k ∈ dfsRoots ns fuel roots, k < ns.length) :
    (∀ r ∈ roots, 1 ≤ fuel →
      ((updateWorldMatrices true fuel ns roots base).getD r Node.arb).worldMatrix
        = matMul base (localMatrix (ns.getD r Node.arb))) ∧
    (∀ (r : ℕ) (l : List ℕ) (c : ℕ), r ∈ roots → ChildChain ns (r :: l) →
      c ∈ (ns.getD (chainLast r l) Node.arb).children →
      (r :: l).length + 1 ≤ fuel →
      ((updateWorldMatrices true fuel ns roots base).getD c Node.arb).worldMatrix
        = matMul
            (((updateWorldMatrices true fuel ns roots base).getD (chainLast r l)
              Node.arb).worldMatrix)
            (localMatrix (ns.getD c Node.arb))) := by
  constructor
  · intro r hr hfuel
    have h := updateWorldMatrices_chain_prod ns roots base fuel hnd hb r [] hr
      (ChildChain.single r) (by simpa using hfuel)
    rw [show chainLast r [] = r from rfl] at h
    rw [h, List.foldl_cons, List.foldl_nil]
  · intro r l c hr hchain hc hlen
    have hparent := updateWorldMatrices_chain_prod ns roots base fuel hnd hb r l hr
      hchain (by simp at hlen ⊢; omega)
    have hchild := updateWorldMatrices_chain_prod ns roots base fuel hnd hb r (l ++ [c]) hr
      (childChain_snoc ns l r c hchain hc) (by simp at hlen ⊢; omega)
    rw [chainLast_snoc] at hchild
    rw [hchild, hparent]
    rw [show r :: (l ++ [c]) = (r :: l) ++ [c] from rfl, List.foldl_append,
      List.foldl_cons, List.foldl_nil]

/-- The two-node scenario over `ZMod 7`: a root translated by `(0,0,5)`
whose child is rotated 90 degrees about Y.  In `ZMod 7` the quaternion
`(0, 2, 0, 2)` satisfies `2*s*c = 1` and `2*s*s = 1` exactly as
`(0, sin 45°, 0, cos 45°)` does over the reals, so the child's local
matrix is exactly the rational rotateY(90°) matrix. -/
def scnRoot : Node (ZMod 7) :=
  { translation := ![0, 0, 5]
    rotation := ![0, 0, 0, 1]
    scale := ![1, 1, 1]
    matrix := mat4create
    worldMatrix := mat4create
    hasOriginalMatrix := false
    meshIndex := none
    skinIndex := none
    children := [1]
    primitiveInstances := none }

/-- The scenario's child node, rotated 90 degrees about Y. -/
def scnChild : Node (ZMod 7) :=
  { translation := ![0, 0, 0]
    rotation := ![0, 2, 0, 2]
    scale := ![1, 1, 1]
    matrix := mat4create
    worldMatrix := mat4create
    hasOriginalMatrix := false
    meshIndex := none
    skinIndex := none
    children := []
    primitiveInstances := none }

/-- `translate(0,0,5)` as a matrix. -/
def scnT5 : Mat4 (ZMod 7) :=
  ![![1, 0, 0, 0], ![0, 1, 0, 0], ![0, 0, 1, 5], ![0, 0, 0, 1]]

/-- `rotateY(90°)` as a matrix (`-1 = 6` in `ZMod 7`). -/
def scnRotY : Mat4 (ZMod 7) :=
  ![![0, 0, 1, 0], ![0, 1, 0, 0], ![6, 0, 0, 0], ![0, 0, 0, 1]]

/-- Witness for `sceneGraph_updateWorldMatrices_spec`: the spec scenario —
after one forced update pass the child's world matrix equals
`translate(0,0,5) * rotateY(90°)`. -/
theorem sceneGraph_updateWorldMatrices_spec_witness :
    (dfsRoots [scnRoot, scnChild] 2 [0]).Nodup ∧
    ((updateWorldMatrices true 2 [scnRoot, scnChild] [0] mat4create).getD 1
      Node.arb).worldMatrix = matMul scnT5 scnRotY := by
  refine ⟨by decide, ?_⟩
  have h := (sceneGraph_updateWorldMatrices_spec [scnRoot, scnChild] [0] mat4create 2
    (by decide) (by decide)).2 0 [] 1 (by decide) (ChildChain.single 0) (by decide)
    (by decide)
  have h0 := (sceneGraph_updateWorldMatrices_spec [scnRoot, scnChild] [0] mat4create 2
    (by decide) (by decide)).1 0 (by decide) (by decide)
  rw [show chainLast 0 [] = 0 from rfl] at h
  rw [h, h0]
  decide

lemma sqrt_unique {K : Type} [LinearOrderedField K] {a r : K}
    (h0 : 0 ≤ a) (hsq : a * a = r * r) (hr : 0 ≤ r) : a = r := by
  rcases mul_self_eq_mul_self_iff.1 hsq with h | h
  · exact h
  · have : a = 0 := by linarith
    rw [this] at h ⊢
    linarith

lemma fromRTS_negq {K : Type} [CommRing K] (q : Vec4 K) (t : Vec3 K) (s : Vec3 K) :
    fromRotationTranslationScale (fun i => -q i) t s =
      fromRotationTranslationScale q t s := by
  funext r c
  fin_cases r <;> fin_cases c <;> (simp [fromRotationTranslationScale]; try ring)

lemma getTranslation_fromRTS {K : Type} [CommRing K] (q : Vec4 K) (t : Vec3 K) (s : Vec3 K) :
    getTranslation (fromRotationTranslationScale q t s) = t := by
  funext i
  fin_cases i <;> rfl

lemma getScaling_uniform {K : Type} [LinearOrderedField K] (sqrt : K → K)
    (q : Vec4 K) (t : Vec3 K) (s : K)
    (hq : q 0 * q 0 + q 1 * q 1 + q 2 * q 2 + q 3 * q 3 = 1)
    (hs : 0 < s)
    (hsqS : 0 ≤ sqrt (s * s) ∧ sqrt (s * s) * sqrt (s * s) = s * s) :
    getScaling sqrt (fromRotationTranslationScale q t ![s, s, s]) = ![s, s, s] := by
  have hsS : sqrt (s * s) = s := sqrt_unique hsqS.1 hsqS.2 (le_of_lt hs)
  have key : ∀ a : K, a = s * s → sqrt a = s := fun a ha => ha ▸ hsS
  funext i
  fin_cases i
  · show sqrt _ = s
    apply key
    simp [fromRotationTranslationScale]
    linear_combination (4 * s * s * (q 1 * q 1 + q 2 * q 2)) * hq
  · show sqrt _ = s
    apply key
    simp [fromRotationTranslationScale]
    linear_combination (4 * s * s * (q 0 * q 0 + q 2 * q 2)) * hq
  · show sqrt _ = s
    apply key
    simp [fromRotationTranslationScale]
    linear_combination (4 * s * s * (q 0 * q 0 + q 1 * q 1)) * hq

lemma getRotation_uniform_args {K : Type} [LinearOrderedField K] (sqrt : K → K)
    (q : Vec4 K) (t : Vec3 K) (s : K)
    (hq : q 0 * q 0 + q 1 * q 1 + q 2 * q 2 + q 3 * q 3 = 1)
    (hs : 0 < s)
    (hsqS : 0 ≤ sqrt (s * s) ∧ sqrt (s * s) * sqrt (s * s) = s * s) :
    getRotation sqrt (fromRotationTranslationScale q t ![s, s, s]) =
      getRotationCore sqrt
        (1 - (2 * q 1 * q 1 + 2 * q 2 * q 2)) (2 * q 0 * q 1 + 2 * q 3 * q 2)
        (2 * q 0 * q 2 - 2 * q 3 * q 1) (2 * q 0 * q 1 - 2 * q 3 * q 2)
        (1 - (2 * q 0 * q 0 + 2 * q 2 * q 2)) (2 * q 1 * q 2 + 2 * q 3 * q 0)
        (2 * q 0 * q 2 + 2 * q 3 * q 1) (2 * q 1 * q 2 - 2 * q 3 * q 0)
        (1 - (2 * q 0 * q 0 + 2 * q 1 * q 1)) := by
  have hs0 : s ≠ 0 := ne_of_gt hs
  simp only [getRotation]
  rw [getScaling_uniform sqrt q t s hq hs hsqS]
  congr 1 <;>
  · simp [fromRotationTranslationScale]
    field_simp
    ring

set_option maxHeartbeats 2000000 in
lemma getRotationCore_unit {K : Type} [LinearOrderedField K] (sqrt : K → K) (x y z w : K)
    (hq : x * x + y * y + z * z + w * w = 1)
    (hX : 0 ≤ sqrt (4 * (x * x)) ∧ sqrt (4 * (x * x)) * sqrt (4 * (x * x)) = 4 * (x * x))
    (hY : 0 ≤ sqrt (4 * (y * y)) ∧ sqrt (4 * (y * y)) * sqrt (4 * (y * y)) = 4 * (y * y))
    (hZ : 0 ≤ sqrt (4 * (z * z)) ∧ sqrt (4 * (z * z)) * sqrt (4 * (z * z)) = 4 * (z * z))
    (hW : 0 ≤ sqrt (4 * (w * w)) ∧ sqrt (4 * (w * w)) * sqrt (4 * (w * w)) = 4 * (w * w)) :
    getRotationCore sqrt (1 - (2 * y * y + 2 * z * z)) (2 * x * y + 2 * w * z)
      (2 * x * z - 2 * w * y) (2 * x * y - 2 * w * z) (1 - (2 * x * x + 2 * z * z))
      (2 * y * z + 2 * w * x) (2 * x * z + 2 * w * y) (2 * y * z - 2 * w * x)
      (1 - (2 * x * x + 2 * y * y)) = ![x, y, z, w] ∨
    getRotationCore sqrt (1 - (2 * y * y + 2 * z * z)) (2 * x * y + 2 * w * z)
      (2 * x * z - 2 * w * y) (2 * x * y - 2 * w * z) (1 - (2 * x * x + 2 * z * z))
      (2 * y * z + 2 * w * x) (2 * x * z + 2 * w * y) (2 * y * z - 2 * w * x)
      (1 - (2 * x * x + 2 * y * y)) = ![-x, -y, -z, -w] := by
  simp only [getRotationCore]
  split_ifs with h1 h2 h3
  · have hw0 : w ≠ 0 := by
      intro h0
      subst h0
      nlinarith [h1, hq]
    have harg : (1 - (2 * y * y + 2 * z * z)) + (1 - (2 * x * x + 2 * z * z)) +
        (1 - (2 * x * x + 2 * y * y)) + 1 = 4 * (w * w) := by linear_combination (-4 : K) * hq
    rw [harg]
    rcases le_or_lt 0 w with hsgn | hsgn
    · left
      have hS : sqrt (4 * (w * w)) = 2 * w :=
        sqrt_unique hW.1 (by rw [hW.2]; ring) (by linarith)
      rw [hS]
      have hSne : (2 * w * 2 : K) ≠ 0 := by
        intro hcon
        apply hw0
        linarith [hcon]
      have e0 : (2 * y * z + 2 * w * x - (2 * y * z - 2 * w * x)) / (2 * w * 2) = x := by
        rw [div_eq_iff hSne]; ring
      have e1 : (2 * x * z + 2 * w * y - (2 * x * z - 2 * w * y)) / (2 * w * 2) = y := by
        rw [div_eq_iff hSne]; ring
      have e2 : (2 * x * y + 2 * w * z - (2 * x * y - 2 * w * z)) / (2 * w * 2) = z := by
        rw [div_eq_iff hSne]; ring
      have e3 : (1 / 4 : K) * (2 * w * 2) = w := by ring
      rw [e0, e1, e2, e3]
    · right
      have hS : sqrt (4 * (w * w)) = -(2 * w) :=
        sqrt_unique hW.1 (by rw [hW.2]; ring) (by linarith)
      rw [hS]
      have hSne : (-(2 * w) * 2 : K) ≠ 0 := by
        intro hcon
        apply hw0
        linarith [hcon]
      have e0 : (2 * y * z + 2 * w * x - (2 * y * z - 2 * w * x)) / (-(2 * w) * 2) = -x := by
        rw [div_eq_iff hSne]; ring
      have e1 : (2 * x * z + 2 * w * y - (2 * x * z - 2 * w * y)) / (-(2 * w) * 2) = -y := by
        rw [div_eq_iff hSne]; ring
      have e2 : (2 * x * y + 2 * w * z - (2 * x * y - 2 * w * z)) / (-(2 * w) * 2) = -z := by
        rw [div_eq_iff hSne]; ring
      have e3 : (1 / 4 : K) * (-(2 * w) * 2) = -w := by ring
      rw [e0, e1, e2, e3]
  · have hx0 : x ≠ 0 := by
      intro h0
      subst h0
      nlinarith [h2.2, mul_self_nonneg z]
    have harg : 1 + (1 - (2 * y * y + 2 * z * z)) - (1 - (2 * x * x + 2 * z * z)) -
        (1 - (2 * x * x + 2 * y * y)) = 4 * (x * x) := by ring
    rw [harg]
    rcases le_or_lt 0 x with hsgn | hsgn
    · left
      have hS : sqrt (4 * (x * x)) = 2 * x :=
        sqrt_unique hX.1 (by rw [hX.2]; ring) (by linarith)
      rw [hS]
      have hSne : (2 * x * 2 : K) ≠ 0 := by
        intro hcon
        apply hx0
        linarith [hcon]
      have e0 : (1 / 4 : K) * (2 * x * 2) = x := by ring
      have e1 : (2 * x * y + 2 * w * z + (2 * x * y - 2 * w * z)) / (2 * x * 2) = y := by
        rw [div_eq_iff hSne]; ring
      have e2 : (2 * x * z + 2 * w * y + (2 * x * z - 2 * w * y)) / (2 * x * 2) = z := by
        rw [div_eq_iff hSne]; ring
      have e3 : (2 * y * z + 2 * w * x - (2 * y * z - 2 * w * x)) / (2 * x * 2) = w := by
        rw [div_eq_iff hSne]; ring
      rw [e0, e1, e2, e3]
    · right
      have hS : sqrt (4 * (x * x)) = -(2 * x) :=
        sqrt_unique hX.1 (by rw [hX.2]; ring) (by linarith)
      rw [hS]
      have hSne : (-(2 * x) * 2 : K) ≠ 0 := by
        intro hcon
        apply hx0
        linarith [hcon]
      have e0 : (1 / 4 : K) * (-(2 * x) * 2) = -x := by ring
      have e1 : (2 * x * y + 2 * w * z + (2 * x * y - 2 * w * z)) / (-(2 * x) * 2) = -y := by
        rw [div_eq_iff hSne]; ring
      have e2 : (2 * x * z + 2 * w * y + (2 * x * z - 2 * w * y)) / (-(2 * x) * 2) = -z := by
        rw [div_eq_iff hSne]; ring
      have e3 : (2 * y * z + 2 * w * x - (2 * y * z - 2 * w * x)) / (-(2 * x) * 2) = -w := by
        rw [div_eq_iff hSne]; ring
      rw [e0, e1, e2, e3]
  · have hy0 : y ≠ 0 := by
      intro h0
      subst h0
      nlinarith [h3, mul_self_nonneg z]
    have harg : 1 + (1 - (2 * x * x + 2 * z * z)) - (1 - (2 * y * y + 2 * z * z)) -
        (1 - (2 * x * x + 2 * y * y)) = 4 * (y * y) := by ring
    rw [harg]
    rcases le_or_lt 0 y with hsgn | hsgn
    · left
      have hS : sqrt (4 * (y * y)) = 2 * y :=
        sqrt_unique hY.1 (by rw [hY.2]; ring) (by linarith)
      rw [hS]
      have hSne : (2 * y * 2 : K) ≠ 0 := by
        intro hcon
        apply hy0
        linarith [hcon]
      have e0 : (2 * x * y + 2 * w * z + (2 * x * y - 2 * w * z)) / (2 * y * 2) = x := by
        rw [div_eq_iff hSne]; ring
      have e1 : (1 / 4 : K) * (2 * y * 2) = y := by ring
      have e2 : (2 * y * z + 2 * w * x + (2 * y * z - 2 * w * x)) / (2 * y * 2) = z := by
        rw [div_eq_iff hSne]; ring
      have e3 : (2 * x * z + 2 * w * y - (2 * x * z - 2 * w * y)) / (2 * y * 2) = w := by
        rw [div_eq_iff hSne]; ring
      rw [e0, e1, e2, e3]
    · right
      have hS : sqrt (4 * (y * y)) = -(2 * y) :=
        sqrt_unique hY.1 (by rw [hY.2]; ring) (by linarith)
      rw [hS]
      have hSne : (-(2 * y) * 2 : K) ≠ 0 := by
        intro hcon
        apply hy0
        linarith [hcon]
      have e0 : (2 * x * y + 2 * w * z + (2 * x * y - 2 * w * z)) / (-(2 * y) * 2) = -x := by
        rw [div_eq_iff hSne]; ring
      have e1 : (1 / 4 : K) * (-(2 * y) * 2) = -y := by ring
      have e2 : (2 * y * z + 2 * w * x + (2 * y * z - 2 * w * x)) / (-(2 * y) * 2) = -z := by
        rw [div_eq_iff hSne]; ring
      have e3 : (2 * x * z + 2 * w * y - (2 * x * z - 2 * w * y)) / (-(2 * y) * 2) = -w := by
        rw [div_eq_iff hSne]; ring
      rw [e0, e1, e2, e3]
  · rw [not_lt] at h1 h3
    rw [not_and_or, not_lt, not_lt] at h2
    have hz0 : z ≠ 0 := by
      intro h0
      subst h0
      rcases h2 with h2 | h2 <;>
        nlinarith [h1, h3, hq, mul_self_nonneg x, mul_self_nonneg y]
    have harg : 1 + (1 - (2 * x * x + 2 * y * y)) - (1 - (2 * y * y + 2 * z * z)) -
        (1 - (2 * x * x + 2 * z * z)) = 4 * (z * z) := by ring
    rw [harg]
    rcases le_or_lt 0 z with hsgn | hsgn
    · left
      have hS : sqrt (4 * (z * z)) = 2 * z :=
        sqrt_unique hZ.1 (by rw [hZ.2]; ring) (by linarith)
      rw [hS]
      have hSne : (2 * z * 2 : K) ≠ 0 := by
        intro hcon
        apply hz0
        linarith [hcon]
      have e0 : (2 * x * z + 2 * w * y + (2 * x * z - 2 * w * y)) / (2 * z * 2) = x := by
        rw [div_eq_iff hSne]; ring
      have e1 : (2 * y * z + 2 * w * x + (2 * y * z - 2 * w * x)) / (2 * z * 2) = y := by
        rw [div_eq_iff hSne]; ring
      have e2 : (1 / 4 : K) * (2 * z * 2) = z := by ring
      have e3 : (2 * x * y + 2 * w * z - (2 * x * y - 2 * w * z)) / (2 * z * 2) = w := by
        rw [div_eq_iff hSne]; ring
      rw [e0, e1, e2, e3]
    · right
      have hS : sqrt (4 * (z * z)) = -(2 * z) :=
        sqrt_unique hZ.1 (by rw [hZ.2]; ring) (by linarith)
      rw [hS]
      have hSne : (-(2 * z) * 2 : K) ≠ 0 := by
        intro hcon
        apply hz0
        linarith [hcon]
      have e0 : (2 * x * z + 2 * w * y + (2 * x * z - 2 * w * y)) / (-(2 * z) * 2) = -x := by
        rw [div_eq_iff hSne]; ring
      have e1 : (2 * y * z + 2 * w * x + (2 * y * z - 2 * w * x)) / (-(2 * z) * 2) = -y := by
        rw [div_eq_iff hSne]; ring
      have e2 : (1 / 4 : K) * (-(2 * z) * 2) = -z := by ring
      have e3 : (2 * x * y + 2 * w * z - (2 * x * y - 2 * w * z)) / (-(2 * z) * 2) = -w := by
        rw [div_eq_iff hSne]; ring
      rw [e0, e1, e2, e3]

/-- C9 (amended): for a node whose source data supplies the matrix
`M = compose(q, t, s)` with `q` a unit quaternion and a uniform positive
scale `s`, construction decomposes `M` into translation, rotation and
scale, and recomposing the node's local matrix reproduces `M` exactly (in
exact arithmetic; the floating-point code realises this up to rounding).
The hypotheses on `sqrt` state that it is the correct square root on the
five arguments the decomposition takes. -/
theorem node_matrix_decompose_roundtrip {K : Type} [LinearOrderedField K]
    (sqrt : K → K) (q : Vec4 K) (t : Vec3 K) (s : K) (nd : NodeData K)
    (hq : q 0 * q 0 + q 1 * q 1 + q 2 * q 2 + q 3 * q 3 = 1)
    (hs : 0 < s)
    (hsqS : 0 ≤ sqrt (s * s) ∧ sqrt (s * s) * sqrt (s * s) = s * s)
    (hsqX : 0 ≤ sqrt (4 * (q 0 * q 0)) ∧
      sqrt (4 * (q 0 * q 0)) * sqrt (4 * (q 0 * q 0)) = 4 * (q 0 * q 0))
    (hsqY : 0 ≤ sqrt (4 * (q 1 * q 1)) ∧
      sqrt (4 * (q 1 * q 1)) * sqrt (4 * (q 1 * q 1)) = 4 * (q 1 * q 1))
    (hsqZ : 0 ≤ sqrt (4 * (q 2 * q 2)) ∧
      sqrt (4 * (q 2 * q 2)) * sqrt (4 * (q 2 * q 2)) = 4 * (q 2 * q 2))
    (hsqW : 0 ≤ sqrt (4 * (q 3 * q 3)) ∧
      sqrt (4 * (q 3 * q 3)) * sqrt (4 * (q 3 * q 3)) = 4 * (q 3 * q 3))
    (hnd : nd.matrix = some (fromRotationTranslationScale q t ![s, s, s])) :
    localMatrix (Node.fromGLTF sqrt nd) = fromRotationTranslationScale q t ![s, s, s] := by
  have hrot := getRotation_uniform_args sqrt q t s hq hs hsqS
  have hcore := getRotationCore_unit sqrt (q 0) (q 1) (q 2) (q 3) hq hsqX hsqY hsqZ hsqW
  have hscal := getScaling_uniform sqrt q t s hq hs hsqS
  have htr := getTranslation_fromRTS q t ![s, s, s]
  simp only [localMatrix, Node.fromGLTF, hnd]
  rw [hscal, htr, hrot]
  rcases hcore with h | h
  · rw [h]
    have hvec : (![q 0, q 1, q 2, q 3] : Vec4 K) = q := by
      funext i; fin_cases i <;> rfl
    rw [hvec]
  · rw [h]
    have hvec : (![-q 0, -q 1, -q 2, -q 3] : Vec4 K) = fun i => -q i := by
      funext i; fin_cases i <;> rfl
    rw [hvec, fromRTS_negq]

/-- Exact square-root table for the C9 counterexample: correct (and
exactly the real square root) on every argument the decomposition of the
counterexample matrix takes, namely 1, 4 and 64/25. -/
def cexSqrt : ℚ → ℚ := fun a =>
  if a = 1 then 1 else if a = 4 then 2 else if a = 64 / 25 then 8 / 5 else 0

/-- The counterexample matrix: rotation by the unit quaternion
`(0, 0, 3/5, 4/5)` with the non-uniform scale `(1, 2, 1)` and no
translation. -/
def cexM : Mat4 ℚ :=
  fromRotationTranslationScale ![0, 0, 3 / 5, 4 / 5] ![0, 0, 0] ![1, 2, 1]

/-- glTF node data carrying the counterexample matrix directly. -/
def cexND : NodeData ℚ :=
  { translation := none, rotation := none, scale := none,
    matrix := some cexM, mesh := none, skin := none, children := [] }

lemma cexM_eval : cexM =
    ![![7 / 25, -48 / 25, 0, 0], ![24 / 25, 14 / 25, 0, 0],
      ![0, 0, 1, 0], ![0, 0, 0, 1]] := by
  funext r c
  fin_cases r <;> fin_cases c <;> norm_num [cexM, fromRotationTranslationScale]

lemma cex_getScaling : getScaling cexSqrt cexM = ![1, 2, 1] := by
  funext i
  fin_cases i <;> (rw [getScaling, cexM_eval]; norm_num [cexSqrt])

lemma cex_getRotation : getRotation cexSqrt cexM = ![0, 0, 3 / 4, 4 / 5] := by
  rw [getRotation, cex_getScaling, cexM_eval]
  funext i
  fin_cases i <;> norm_num [getRotationCore, cexSqrt]

/-- C9 counterexample: for a matrix that is a rotation times the
non-uniform scale `(1, 2, 1)`, construction-time decomposition followed
by recomposition does NOT reproduce the matrix, even with an exact square
root on every argument taken: glMatrix `getRotation` multiplies entry
`mat[c*4+r]` by the inverse scale of row `r` instead of column `c`, so the
extracted quaternion `(0, 0, 3/4, 4/5)` is not even unit, and the
recomposed entry (0,0) is `-1/8` where the original is `7/25`. -/
theorem node_matrix_decompose_nonuniform_cex :
    (0 ≤ cexSqrt 1 ∧ cexSqrt 1 * cexSqrt 1 = 1) ∧
    (0 ≤ cexSqrt 4 ∧ cexSqrt 4 * cexSqrt 4 = 4) ∧
    (0 ≤ cexSqrt (64 / 25) ∧ cexSqrt (64 / 25) * cexSqrt (64 / 25) = 64 / 25) ∧
    localMatrix (Node.fromGLTF cexSqrt cexND) ≠ cexM := by
  refine ⟨⟨by norm_num [cexSqrt], by norm_num [cexSqrt]⟩,
    ⟨by norm_num [cexSqrt], by norm_num [cexSqrt]⟩,
    ⟨by norm_num [cexSqrt], by norm_num [cexSqrt]⟩, ?_⟩
  intro h
  have h00 := congrFun (congrFun h 0) 0
  have hL : localMatrix (Node.fromGLTF cexSqrt cexND) 0 0 = -(1 / 8) := by
    simp only [localMatrix, Node.fromGLTF, cexND]
    rw [cex_getRotation, cex_getScaling]
    norm_num [fromRotationTranslationScale]
  have hR : cexM 0 0 = 7 / 25 := by
    rw [cexM_eval]
    norm_num
  rw [hL, hR] at h00
  norm_num at h00

/-- Exact square-root table for the C9 witness (arguments taken:
`s*s = 4`, `4z² = 36/25`, `4w² = 64/25`, and 0). -/
def witSqrt : ℚ → ℚ := fun a =>
  if a = 4 then 2 else if a = 36 / 25 then 6 / 5 else if a = 64 / 25 then 8 / 5 else 0

/-- glTF node data for the C9 witness: source matrix
`compose((0,0,3/5,4/5), (1,2,3), uniform 2)`. -/
def witND : NodeData ℚ :=
  { translation := none, rotation := none, scale := none,
    matrix := some (fromRotationTranslationScale ![0, 0, 3 / 5, 4 / 5] ![1, 2, 3] ![2, 2, 2]),
    mesh := none, skin := none, children := [] }

/-- Witness for `node_matrix_decompose_roundtrip` at a concrete rational
rotation (unit quaternion `(0,0,3/5,4/5)`), translation `(1,2,3)` and
uniform scale 2. -/
theorem node_matrix_decompose_roundtrip_witness :
    (0 : ℚ) < 2 ∧
    localMatrix (Node.fromGLTF witSqrt witND) =
      fromRotationTranslationScale ![0, 0, 3 / 5, 4 / 5] ![1, 2, 3] ![2, 2, 2] :=
  ⟨by norm_num,
   node_matrix_decompose_roundtrip witSqrt ![0, 0, 3 / 5, 4 / 5] ![1, 2, 3] 2 witND
     (by norm_num) (by norm_num)
     (by norm_num [witSqrt]) (by norm_num [witSqrt]) (by norm_num [witSqrt])
     (by norm_num [witSqrt]) (by norm_num [witSqrt]) rfl⟩
